import Mathlib

/-!
Verification of the HelixQL language server (src/main.rs).

The development shallowly embeds the server's pure logic: path handling,
sibling-file discovery, the analyze/cache/publish pipeline, error-location
extraction, word/context scanning, and the hover resolver chain.  The external
parser and analyzer collaborators are parameters at their boundary, as are the
directory listing and file reads.  Text is modelled as lists of characters
(ASCII-faithful: Rust's byte/char distinction is not observable on the inputs
the claims quantify over, and is noted where it matters).
-/

namespace HelixLsp

/-- A character counts as a word character: alphanumeric or underscore
(`c.is_alphanumeric() || c == '_'` in the source; ASCII reading). -/
def isWordChar (c : Char) : Bool :=
  c.isAlphanum || c = '_'

/-- Split a character list on a separator character.  Always returns a
non-empty list of pieces (like Rust's `split`). -/
def splitOnChar (sep : Char) : List Char → List (List Char)
  | [] => [[]]
  | c :: cs =>
    if c = sep then
      [] :: splitOnChar sep cs
    else
      match splitOnChar sep cs with
      | [] => [[c]]
      | p :: ps => (c :: p) :: ps

/-- Drop a final empty piece, mirroring how Rust's `str::lines` yields no
final empty line for text ending in a newline. -/
def dropLastEmpty (ls : List (List Char)) : List (List Char) :=
  if ls.getLast? = some [] then ls.dropLast else ls

/-- Strip one trailing carriage return, as Rust's `str::lines` does. -/
def stripCR (l : List Char) : List Char :=
  if l.getLast? = some '\r' then l.dropLast else l

/-- Rust `str::lines`: split on newline, drop the final empty piece, strip
one trailing carriage return from each line. -/
def rustLines (s : List Char) : List (List Char) :=
  (dropLastEmpty (splitOnChar '\n' s)).map stripCR

/-- Index of the first occurrence of a character (Rust `str::find(char)`). -/
def findChar (c : Char) : List Char → Option Nat
  | [] => none
  | d :: ds =>
    if d = c then some 0
    else match findChar c ds with
      | some i => some (i + 1)
      | none => none

/-- Index of the first occurrence of a pattern (Rust `str::find(&str)`). -/
def findSub (pat : List Char) : List Char → Option Nat
  | [] => if pat = [] then some 0 else none
  | c :: cs =>
    if pat.isPrefixOf (c :: cs) then some 0
    else match findSub pat cs with
      | some i => some (i + 1)
      | none => none

/-- Index of the last occurrence of a pattern starting from offset `i`
(Rust `str::rfind(&str)`, with the offset threaded for the recursion). -/
def rfindAux (pat : List Char) : List Char → Nat → Option Nat
  | [], i => if pat = [] then some i else none
  | c :: cs, i =>
    match rfindAux pat cs (i + 1) with
    | some j => some j
    | none => if pat.isPrefixOf (c :: cs) then some i else none

/-- Index of the last occurrence of a pattern (Rust `str::rfind(&str)`). -/
def rfindSub (pat text : List Char) : Option Nat :=
  rfindAux pat text 0

/-- Value of a digit string, `none` on any non-digit. -/
def digitsValAux : List Char → Nat → Option Nat
  | [], acc => some acc
  | d :: ds, acc =>
    if d.isDigit then digitsValAux ds (acc * 10 + (d.toNat - 48)) else none

/-- Rust `str::parse::<u32>`: optional leading plus sign, one or more digits,
value within `u32` range. -/
def parseU32 (s : List Char) : Option Nat :=
  let t := match s with
    | '+' :: rest => rest
    | _ => s
  match t with
  | [] => none
  | _ =>
    match digitsValAux t 0 with
    | some v => if v < 2 ^ 32 then some v else none
    | none => none

/-- Association-list lookup (models `DashMap::get` / `HashMap::get`). -/
def alookup {β : Type} (m : List (String × β)) (k : String) : Option β :=
  match m with
  | [] => none
  | (k', v) :: rest => if k' = k then some v else alookup rest k

/-- Association-list removal of a key (models `HashMap::remove`). -/
def aremove {β : Type} (m : List (String × β)) (k : String) : List (String × β) :=
  match m with
  | [] => []
  | (k', v) :: rest => if k' = k then rest else (k', v) :: aremove rest k

/-- Association-list insert-or-replace (models `DashMap::insert`). -/
def ainsert {β : Type} (m : List (String × β)) (k : String) (v : β) :
    List (String × β) :=
  match m with
  | [] => [(k, v)]
  | (k', v') :: rest =>
    if k' = k then (k, v) :: rest else (k', v') :: ainsert rest k v

/-- Append an element to the list stored under a key, creating the entry when
absent (models `HashMap::entry(k).or_default().push(d)`). -/
def apush {β : Type} (m : List (String × List β)) (k : String) (d : β) :
    List (String × List β) :=
  match m with
  | [] => [(k, [d])]
  | (k', l) :: rest =>
    if k' = k then (k', l ++ [d]) :: rest else (k', l) :: apush rest k d

/-- The path component after the last slash (Rust `Path::file_name`, with the
whole path when no slash occurs; `..`-style components are not modelled). -/
def fileNameChars (p : List Char) : List Char :=
  ((splitOnChar '/' p).getLast?).getD []

/-- `Path::file_name().to_string_lossy()` as a string-level operation. -/
def fileName (p : String) : String :=
  String.mk (fileNameChars p.data)

/-- The parent directory: the path before the last slash (Rust
`Path::parent`), with `/` preserved for top-level absolute paths and the
empty string when there is no slash.  Models
`uri.to_file_path().ok().and_then(parent).unwrap_or_default()` with the
URI-to-path conversion taken as the identity on path strings. -/
def parentDirChars (p : List Char) : List Char :=
  match rfindSub ['/'] p with
  | none => []
  | some 0 => ['/']
  | some i => p.take i

/-- String-level parent directory. -/
def parentDir (p : String) : String :=
  String.mk (parentDirChars p.data)

/-- Rust `Path::extension`: the file-name text after its last dot, `none`
when the file name has no dot or only a leading dot. -/
def extension (p : String) : Option String :=
  let n := fileNameChars p.data
  match rfindSub ['.'] n with
  | none => none
  | some 0 => none
  | some i => some (String.mk (n.drop (i + 1)))

/-- A recognized source-file extension: `.hx` or `.hql`. -/
def recognizedExt (p : String) : Bool :=
  extension p = some "hx" || extension p = some "hql"

/-- The `--> ` marker prefix searched by `parse_error_location`. -/
def arrowChars : List Char := ['-', '-', '>', ' ']

/-- `parse_error_location` (src/main.rs lines 16-31) on character lists:
find `"--> "`, take the text up to the following newline, split it on `:`,
parse the first two pieces as `u32`, and return them decremented by one
(saturating); `(0, 0)` on any failure. -/
def parse_error_location_chars (m : List Char) : Nat × Nat :=
  match findSub arrowChars m with
  | none => (0, 0)
  | some arrowIdx =>
    match findChar '\n' (m.drop (arrowIdx + 4)) with
    | none => (0, 0)
    | some newlineIdx =>
      match splitOnChar ':' ((m.drop (arrowIdx + 4)).take newlineIdx) with
      | p0 :: p1 :: _ =>
        match parseU32 p0, parseU32 p1 with
        | some line, some col => (line - 1, col - 1)
        | _, _ => (0, 0)
      | _ => (0, 0)

/-- `parse_error_location` on strings. -/
def parse_error_location (msg : String) : Nat × Nat :=
  parse_error_location_chars msg.data

/-! ## Data model (helix parser/analyzer types, at their observed boundary) -/

/-- A source position as the parser reports it (1-based line and column). -/
structure HxPos where
  line : Nat
  column : Nat
deriving DecidableEq

/-- A source location: optional owning file plus a start and an end position
(the `end` field is named `stop` because `end` is reserved in Lean). -/
structure HxLoc where
  filepath : Option String
  start : HxPos
  stop : HxPos
deriving DecidableEq

/-- Field types of the schema language.  The payloads of `object` fields are
carried but never observed by the server (it matches `Object(_)`). -/
inductive FieldType where
  | string | f32 | f64 | i8 | i16 | i32 | i64
  | u8 | u16 | u32 | u64 | u128 | boolean | uuid | date
  | array (inner : FieldType)
  | identifier (name : String)
  | object (fields : List (String × FieldType))

/-- A named schema field. -/
structure Field where
  name : String
  field_type : FieldType

/-- A node-type definition: located name and field list.  Tuples mirror the
Rust pairs, so Rust's `.0`/`.1` are Lean's `.1`/`.2`. -/
structure NodeSchema where
  name : HxLoc × String
  fields : List Field

/-- An edge-type definition: located name, from/to types, optional
properties. -/
structure EdgeSchema where
  name : HxLoc × String
  from_type : HxLoc × String
  to_type : HxLoc × String
  properties : Option (List Field)

/-- A vector-type definition: plain name, location, field list. -/
structure VectorSchema where
  name : String
  loc : HxLoc
  fields : List Field

/-- One schema version's declarations. -/
structure Schema where
  node_schemas : List NodeSchema
  edge_schemas : List EdgeSchema
  vector_schemas : List VectorSchema

/-- Traversal start nodes, with exactly the payloads the server reads;
start kinds it does not inspect are collapsed into `other`. -/
inductive StartNode where
  | node (node_type : String)
  | edge (edge_type : String)
  | vector (vector_type : String)
  | searchVector (vector_type : Option String)
  | other

/-- Traversal steps: the server only distinguishes `AddEdge` steps (and the
optional edge type they carry) from everything else. -/
inductive StepType where
  | addEdge (edge_type : Option String)
  | other

/-- A traversal expression: a start node and a step list. -/
structure Traversal where
  start : StartNode
  steps : List StepType

/-- Expression kinds, with the payloads the server reads; literal payloads
are never observed (`StringLiteral(_)` etc.) and unhandled kinds are
collapsed into `other` (the `_ => None` arm). -/
inductive ExpressionType where
  | addNode (node_type : Option String)
  | addEdge (edge_type : Option String)
  | addVector (vector_type : Option String)
  | traversal (t : Traversal)
  | searchVector (vector_type : Option String)
  | stringLiteral
  | integerLiteral
  | floatLiteral
  | booleanLiteral
  | arrayLiteral
  | other

/-- Statements: assignments (bound variable — `var` here, since `variable`
is reserved in Lean — and right-hand expression), for-loops (nested
statement list), everything else collapsed into `other`. -/
inductive StatementType where
  | assignment (var : String) (value : ExpressionType)
  | forLoop (statements : List StatementType)
  | other

/-- A query parameter: located name, located declared type, optionality. -/
structure Parameter where
  name : HxLoc × String
  param_type : HxLoc × FieldType
  is_optional : Bool

/-- A query: source span, parameter list, statement list. -/
structure Query where
  loc : HxLoc
  parameters : List Parameter
  statements : List StatementType

/-- The parser's structured model: schema versions (iterated in list order)
and queries. -/
structure Source where
  schema : List (String × Schema)
  queries : List Query

/-- A named file buffer handed to the parser. -/
structure HxFile where
  name : String
  content : String
deriving DecidableEq

/-- Analyzer diagnostic severities. -/
inductive HxSeverity where
  | error | warning | info | hint | empty
deriving DecidableEq

/-- An analyzer diagnostic.  The optional `hint` text is part of the
analyzer's output contract (spec §3/§6); the server never reads it. -/
structure HxDiagnostic where
  location : HxLoc
  severity : HxSeverity
  message : String
  hint : Option String
deriving DecidableEq

/-- Editor-facing (LSP) severities used by the server. -/
inductive LspSeverity where
  | error | warning | information | hint
deriving DecidableEq

/-- Editor-facing 0-based position. -/
structure LspPosition where
  line : Nat
  character : Nat
deriving DecidableEq

/-- Editor-facing range (`end` renamed `stop`). -/
structure LspRange where
  start : LspPosition
  stop : LspPosition
deriving DecidableEq

/-- Editor-facing diagnostic, with the fields the server sets. -/
structure LspDiagnostic where
  range : LspRange
  severity : LspSeverity
  source : Option String
  message : String
deriving DecidableEq

/-- Parser outcome: a structured model or an error message
(`HelixParser::parse_source`). -/
inductive PResult where
  | ok (source : Source)
  | err (msg : String)

/-- Analyzer outcome: a diagnostic list (the annotated model it also returns
is discarded by the server) or an error message (`analyze`). -/
inductive AResult where
  | ok (diags : List HxDiagnostic)
  | err (msg : String)

/-- The server's shared state: open documents and the per-directory parsed
cache (both `DashMap`s, modelled as association lists). -/
structure ServerState where
  documents : List (String × String)
  parsed_cache : List (String × Source)

/-- The environment at the system boundary: the directory listing
(`fs::read_dir`, entries as full paths) and file reads
(`fs::read_to_string`, `none` for an unreadable file). -/
structure Env where
  listing : String → List String
  disk : String → Option String

/-! ## The analyze pipeline (src/main.rs lines 50-255) -/

/-- `get_sibling_files` (lines 50-67): all entries of the parent directory
of the given file whose extension is `hx` or `hql`, in listing order.
`Url::to_file_path`/`Url::from_file_path` are taken as the identity on path
strings. -/
def get_sibling_files (env : Env) (uri : String) : List String :=
  (env.listing (parentDir uri)).filter recognizedExt

/-- The per-member content selection in `analyze_workspace` (lines 82-102):
open-buffer text when the document is open, else the disk read, else the
empty string; each member is paired with its file name. -/
def buildFiles (docs : List (String × String)) (env : Env)
    (files : List String) : List HxFile :=
  files.map fun p =>
    { name := fileName p
      content := match alookup docs p with
        | some doc => doc
        | none => (env.disk p).getD "" }

/-- Severity conversion (lines 133-139): `Empty` maps to Information. -/
def severityToLsp : HxSeverity → LspSeverity
  | .error => .error
  | .warning => .warning
  | .info => .information
  | .hint => .hint
  | .empty => .information

/-- Translation of one analyzer diagnostic to the editor diagnostic the
server publishes (lines 141-168): 1-based positions become 0-based by
saturating decrement, source is `helixql`, and the message is copied. -/
def translate_diag (d : HxDiagnostic) : LspDiagnostic :=
  { range :=
      { start := { line := d.location.start.line - 1
                   character := d.location.start.column - 1 }
        stop := { line := d.location.stop.line - 1
                  character := d.location.stop.column - 1 } }
    severity := severityToLsp d.severity
    source := some "helixql"
    message := d.message }

/-- The owning member for a diagnostic filename (lines 116-131): the first
member file whose name equals the diagnostic's filename, or — when the
filename is empty — simply the first member. -/
def diagOwner (files : List String) (fname : String) : Option String :=
  files.find? fun p => fileName p = fname || fname = ""

/-- One iteration of the diagnostic-grouping loop (lines 116-177): append
the translated diagnostic to its owner's list, or drop it when no member
owns it. -/
def groupStep (files : List String)
    (m : List (String × List LspDiagnostic)) (d : HxDiagnostic) :
    List (String × List LspDiagnostic) :=
  match diagOwner files ((d.location.filepath).getD "") with
  | some f => apush m f (translate_diag d)
  | none => m

/-- Grouping of analyzer diagnostics by owning member (the loop at lines
116-177). -/
def groupDiagnostics (files : List String) (diags : List HxDiagnostic) :
    List (String × List LspDiagnostic) :=
  diags.foldl (groupStep files) []

/-- The synthetic diagnostic for an analyzer failure (lines 179-208):
located by `parse_error_location`, width 50, message prefixed. -/
def mkAnalyzerErrDiag (e : String) : LspDiagnostic :=
  let lc := parse_error_location e
  { range := { start := { line := lc.1, character := lc.2 }
               stop := { line := lc.1, character := lc.2 + 50 } }
    severity := .error
    source := some "helixql"
    message := "Analyzer error: " ++ e }

/-- The synthetic diagnostic for a parse failure (lines 214-243): same
shape, message is the raw error text. -/
def mkParseErrDiag (e : String) : LspDiagnostic :=
  let lc := parse_error_location e
  { range := { start := { line := lc.1, character := lc.2 }
               stop := { line := lc.1, character := lc.2 + 50 } }
    severity := .error
    source := some "helixql"
    message := e }

/-- The `all_diagnostics` map a run computes, before publication: grouped
analyzer diagnostics on full success, a single synthetic diagnostic on the
first member on analyzer or parse failure (none at all when the workspace is
empty). -/
def computeDiagMap (env : Env) (parse_source : List HxFile → PResult)
    (analyze : Source → AResult) (st : ServerState) (uri : String) :
    List (String × List LspDiagnostic) :=
  let files := get_sibling_files env uri
  match parse_source (buildFiles st.documents env files) with
  | .ok source =>
    match analyze source with
    | .ok diags => groupDiagnostics files diags
    | .err e =>
      match files with
      | [] => []
      | f :: _ => [(f, [mkAnalyzerErrDiag e])]
  | .err e =>
    match files with
    | [] => []
    | f :: _ => [(f, [mkParseErrDiag e])]

/-- The publish loop (lines 246-254): every member file receives, in member
order, the list removed from the map under its key — the empty list when the
map holds nothing for it. -/
def publishAll (files : List String)
    (m : List (String × List LspDiagnostic)) :
    List (String × List LspDiagnostic) :=
  match files with
  | [] => []
  | f :: rest => (f, (alookup m f).getD []) :: publishAll rest (aremove m f)

/-- `analyze_workspace` (lines 70-255): returns the new server state and the
per-file published diagnostic lists.  The cache is overwritten under the
parent-directory key exactly when the parser succeeds (line 212 sits outside
the analyzer match); documents are unchanged. -/
def analyze_workspace (env : Env) (parse_source : List HxFile → PResult)
    (analyze : Source → AResult) (st : ServerState) (uri : String) :
    ServerState × List (String × List LspDiagnostic) :=
  let files := get_sibling_files env uri
  let dir_key := parentDir uri
  let pubs := publishAll files (computeDiagMap env parse_source analyze st uri)
  match parse_source (buildFiles st.documents env files) with
  | .ok source =>
    ({ st with parsed_cache := ainsert st.parsed_cache dir_key source }, pubs)
  | .err _ => (st, pubs)

/-! ## Lexical context resolution (src/main.rs lines 258-541) -/

/-- The backwards scan of `get_word_at_position` (lines 274-276): decrement
the start index while the character before it is a word character. -/
def scanLeft (line : List Char) : Nat → Nat
  | 0 => 0
  | s + 1 => if isWordChar (line.getD s ' ') then scanLeft line s else s + 1

/-- The forwards scan of `get_word_at_position` (lines 279-281), with
explicit fuel to keep the recursion structural: increment the end index
while it is in bounds and points at a word character. -/
def scanRightAux (line : List Char) : Nat → Nat → Nat
  | 0, e => e
  | fuel + 1, e =>
    if e < line.length then
      if isWordChar (line.getD e ' ') then scanRightAux line fuel (e + 1) else e
    else e

/-- The forwards scan with enough fuel to reach the end of the line. -/
def scanRight (line : List Char) (e : Nat) : Nat :=
  scanRightAux line line.length e

/-- `get_word_at_position` (lines 258-288): on the cursor's line, scan left
and right over word characters; no word when the cursor is past the end of
the line or the resulting span is empty. -/
def get_word_at_position (docs : List (String × String)) (uri : String)
    (pos : LspPosition) : Option String :=
  match alookup docs uri with
  | none => none
  | some doc =>
    match (rustLines doc.data).get? pos.line with
    | none => none
    | some line =>
      if pos.character > line.length then none
      else
        let s := scanLeft line pos.character
        let e := scanRight line pos.character
        if s = e then none
        else some (String.mk ((line.drop s).take (e - s)))

/-- One entity kind's candidate in `find_context_type` (lines 427-440): the
rightmost occurrence of `K<`, accepted when the text from it up to the next
`>` is a non-empty identifier, rejected otherwise (earlier occurrences are
never examined). -/
def candidateFor (k : Char) (text : List Char) :
    Option (Nat × String × String) :=
  match rfindSub [k, '<'] text with
  | none => none
  | some start =>
    match findChar '>' (text.drop (start + 2)) with
    | none => none
    | some e =>
      if (text.drop (start + 2)).take e ≠ [] ∧
          ((text.drop (start + 2)).take e).all isWordChar then
        some (start, String.mk [k], String.mk ((text.drop (start + 2)).take e))
      else none

/-- `find_context_type` (lines 423-444): among the three kinds' candidates,
keep the one whose marker occurs latest (strictly greater start wins, in
iteration order N, E, V). -/
def find_context_type (text : String) : Option (String × String) :=
  let step := fun (best : Option (Nat × String × String)) (k : Char) =>
    match candidateFor k text.data with
    | none => best
    | some (start, kind, name) =>
      match best with
      | none => some (start, kind, name)
      | some (bs, bk, bn) =>
        if start > bs then some (start, kind, name) else some (bs, bk, bn)
  match ['N', 'E', 'V'].foldl step none with
  | none => none
  | some (_, kind, name) => some (kind, name)

/-- `field_type_to_string` (lines 355-376). -/
def field_type_to_string : FieldType → String
  | .string => "String"
  | .f32 => "F32"
  | .f64 => "F64"
  | .i8 => "I8"
  | .i16 => "I16"
  | .i32 => "I32"
  | .i64 => "I64"
  | .u8 => "U8"
  | .u16 => "U16"
  | .u32 => "U32"
  | .u64 => "U64"
  | .u128 => "U128"
  | .boolean => "Boolean"
  | .uuid => "Uuid"
  | .date => "Date"
  | .array inner => "[" ++ field_type_to_string inner ++ "]"
  | .identifier name => name
  | .object _ => "Object"

/-- The built-in-field table of `lookup_field_in_schema` (lines 463-493). -/
def builtinField (type_kind type_name field_name : String) :
    Option (String × String) :=
  if type_kind = "N" then
    if field_name = "id" then some ("Uuid", "N::" ++ type_name)
    else if field_name = "label" then some ("String", "N::" ++ type_name)
    else none
  else if type_kind = "E" then
    if field_name = "id" then some ("Uuid", "E::" ++ type_name)
    else if field_name = "label" then some ("String", "E::" ++ type_name)
    else if field_name = "from_node" then some ("Uuid", "E::" ++ type_name)
    else if field_name = "to_node" then some ("Uuid", "E::" ++ type_name)
    else none
  else if type_kind = "V" then
    if field_name = "id" then some ("Uuid", "V::" ++ type_name)
    else if field_name = "label" then some ("String", "V::" ++ type_name)
    else if field_name = "data" then some ("[F64]", "V::" ++ type_name)
    else if field_name = "score" then some ("F64", "V::" ++ type_name)
    else none
  else none

/-- `lookup_field_in_schema` (lines 447-541): after fetching the cached
model for the directory, built-in fields win; otherwise the schema versions
are searched in order for a matching definition carrying the field. -/
def lookup_field_in_schema (cache : List (String × Source)) (uri : String)
    (type_kind type_name field_name : String) : Option (String × String) :=
  match alookup cache (parentDir uri) with
  | none => none
  | some source =>
    match builtinField type_kind type_name field_name with
    | some r => some r
    | none =>
      source.schema.findSome? fun vs =>
        if type_kind = "N" then
          vs.2.node_schemas.findSome? fun node =>
            if node.name.2 = type_name then
              node.fields.findSome? fun field =>
                if field.name = field_name then
                  some (field_type_to_string field.field_type,
                        "N::" ++ type_name)
                else none
            else none
        else if type_kind = "E" then
          vs.2.edge_schemas.findSome? fun edge =>
            if edge.name.2 = type_name then
              match edge.properties with
              | some props =>
                props.findSome? fun field =>
                  if field.name = field_name then
                    some (field_type_to_string field.field_type,
                          "E::" ++ type_name)
                  else none
              | none => none
            else none
        else if type_kind = "V" then
          vs.2.vector_schemas.findSome? fun vector =>
            if vector.name = type_name then
              vector.fields.findSome? fun field =>
                if field.name = field_name then
                  some (field_type_to_string field.field_type,
                        "V::" ++ type_name)
                else none
            else none
        else none

/-- `get_field_context_hover` (lines 379-420): the cursor must sit inside an
unclosed `::\x7b` block on its line; the bracket context to the left of the
opener is resolved and the field looked up in the schema. -/
def get_field_context_hover (docs : List (String × String))
    (cache : List (String × Source)) (uri : String) (pos : LspPosition)
    (field_name : String) : Option String :=
  match alookup docs uri with
  | none => none
  | some doc =>
    match (rustLines doc.data).get? pos.line with
    | none => none
    | some line =>
      if pos.character > line.length then none
      else
        let before_cursor := line.take pos.character
        match rfindSub [':', ':', '\x7b'] before_cursor with
        | none => none
        | some brace_pos =>
          let between := before_cursor.drop (brace_pos + 3)
          if between.contains '\x7d' then none
          else
            let search_area := before_cursor.take brace_pos
            match find_context_type (String.mk search_area) with
            | none => none
            | some kn =>
              match lookup_field_in_schema cache uri kn.1 kn.2 field_name with
              | none => none
              | some r =>
                some ("**" ++ field_name ++ "**: " ++ r.1 ++
                      " (from " ++ r.2 ++ ")")

/-! ## Schema, variable and parameter resolvers (src/main.rs lines 290-695) -/

/-- The rendered field block `    name: type\n` per field (the push_str
loops at lines 304-308, 336-342). -/
def fieldsBlock (fields : List Field) : String :=
  String.join (fields.map fun f =>
    "    " ++ f.name ++ ": " ++ field_type_to_string f.field_type ++ "\n")

/-- The rendered edge body (lines 319-327): from/to lines plus the optional
properties block. -/
def edgeBlock (edge : EdgeSchema) : String :=
  let base := "    From: " ++ edge.from_type.2 ++ "\n    To: " ++
    edge.to_type.2 ++ "\n"
  match edge.properties with
  | some props =>
    base ++ "    Properties \x7b\n" ++
      String.join (props.map fun f =>
        "        " ++ f.name ++ ": " ++ field_type_to_string f.field_type ++
          "\n") ++
      "    \x7d\n"
  | none => base

/-- `get_type_hover_info` (lines 291-352): search every schema version, in
order nodes / edges / vectors, for a definition named like the word and
render it. -/
def get_type_hover_info (cache : List (String × Source)) (uri word : String) :
    Option String :=
  match alookup cache (parentDir uri) with
  | none => none
  | some source =>
    source.schema.findSome? fun vs =>
      match vs.2.node_schemas.findSome? fun node =>
          if node.name.2 = word then
            some ("**" ++ word ++ "** (Node)\n\n```hql\nN::" ++ word ++
                  " \x7b\n" ++ fieldsBlock node.fields ++ "\x7d\n```")
          else none with
      | some r => some r
      | none =>
      match vs.2.edge_schemas.findSome? fun edge =>
          if edge.name.2 = word then
            some ("**" ++ word ++ "** (Edge)\n\n```hql\nE::" ++ word ++
                  " \x7b\n" ++ edgeBlock edge ++ "\x7d\n```")
          else none with
      | some r => some r
      | none =>
        vs.2.vector_schemas.findSome? fun vector =>
          if vector.name = word then
            some ("**" ++ word ++ "** (Vector)\n\n```hql\nV::" ++ word ++
                  " \x7b\n" ++ fieldsBlock vector.fields ++ "\x7d\n```")
          else none

/-- The step scan of `infer_expression_type`'s traversal arm (lines
652-659): the first `AddEdge` step decides, anywhere in the step list. -/
def findAddEdgeStep : List StepType → Option (Option String)
  | [] => none
  | .addEdge et :: _ => some et
  | .other :: rest => findAddEdgeStep rest

/-- `infer_expression_type` (lines 627-695). -/
def infer_expression_type : ExpressionType → Option String
  | .addNode (some nt) => some ("**variable**: Node<" ++ nt ++ ">")
  | .addNode none => some "**variable**: Node"
  | .addEdge (some et) => some ("**variable**: Edge<" ++ et ++ ">")
  | .addEdge none => some "**variable**: Edge"
  | .addVector (some vt) => some ("**variable**: Vector<" ++ vt ++ ">")
  | .addVector none => some "**variable**: Vector"
  | .traversal t =>
    match findAddEdgeStep t.steps with
    | some (some e) => some ("**variable**: Edge<" ++ e ++ ">")
    | some none => some "**variable**: Edge"
    | none =>
      match t.start with
      | .node nt => some ("**variable**: Node<" ++ nt ++ ">")
      | .edge et => some ("**variable**: Edge<" ++ et ++ ">")
      | .vector vt => some ("**variable**: Vector<" ++ vt ++ ">")
      | .searchVector (some vt) => some ("**variable**: Vector<" ++ vt ++ ">")
      | .searchVector none => some "**variable**: Vector"
      | .other => some "**variable**: Traversal"
  | .searchVector (some vt) => some ("**variable**: Vector<" ++ vt ++ ">")
  | .searchVector none => some "**variable**: Vector"
  | .stringLiteral => some "**variable**: String"
  | .integerLiteral => some "**variable**: Integer"
  | .floatLiteral => some "**variable**: Float"
  | .booleanLiteral => some "**variable**: Boolean"
  | .arrayLiteral => some "**variable**: Array"
  | .other => none

/-- `find_variable_in_statements` (lines 600-624): the first assignment of
the word decides (even when inference fails for it); for-loop bodies are
searched before the following statements. -/
def find_variable_in_statements :
    List StatementType → String → Option String
  | [], _ => none
  | .assignment v e :: rest, word =>
    if v = word then infer_expression_type e
    else find_variable_in_statements rest word
  | .forLoop body :: rest, word =>
    match find_variable_in_statements body word with
    | some r => some r
    | none => find_variable_in_statements rest word
  | .other :: rest, word => find_variable_in_statements rest word

/-- `get_variable_type` (lines 544-567): the first query whose 1-based line
span contains the cursor line decides; its statements are searched. -/
def get_variable_type (cache : List (String × Source)) (uri : String)
    (pos : LspPosition) (word : String) : Option String :=
  match alookup cache (parentDir uri) with
  | none => none
  | some source =>
    let line := pos.line + 1
    match source.queries.find? fun q =>
        decide (q.loc.start.line ≤ line) && decide (line ≤ q.loc.stop.line)
      with
    | some q => find_variable_in_statements q.statements word
    | none => none

/-- `get_parameter_type` (lines 570-597): queries whose span contains the
cursor line are scanned for a parameter named like the word; unlike
variable lookup, later queries are tried when one has no match. -/
def get_parameter_type (cache : List (String × Source)) (uri : String)
    (pos : LspPosition) (word : String) : Option String :=
  match alookup cache (parentDir uri) with
  | none => none
  | some source =>
    let line := pos.line + 1
    source.queries.findSome? fun q =>
      if q.loc.start.line ≤ line ∧ line ≤ q.loc.stop.line then
        q.parameters.findSome? fun param =>
          if param.name.2 = word then
            some ("**" ++ word ++ "**: " ++
                  field_type_to_string param.param_type.2 ++
                  (if param.is_optional then "?" else "") ++ " (parameter)")
          else none
      else none

/-! ## Keyword documentation and the hover chain (src/main.rs 697-1248) -/

/-- The static keyword/operator documentation table of `get_keyword_docs`
(lines 698-867), with literal braces written as escapes. -/
def keywordDocsTable : List (String × String) :=
  [ ("QUERY", "Defines a new query function.\n\nSyntax: `QUERY name(param: Type) => \x7b ... \x7d`"),
    ("RETURN", "Returns values from a query.\n\nSyntax: `RETURN expression`"),
    ("WHERE", "Filters results based on a condition.\n\nSyntax: `::WHERE(condition)`"),
    ("FOR", "Iterates over a collection.\n\nSyntax: `FOR item IN collection`"),
    ("IN", "Used with FOR loops or set membership."),
    ("EXISTS", "Checks if a value exists."),
    ("AND", "Logical AND operator."),
    ("OR", "Logical OR operator."),
    ("NONE", "Represents no value or empty result."),
    ("DROP", "Removes/deletes data."),
    ("MIGRATION", "Defines a schema migration."),
    ("FIRST", "Returns the first element of a collection."),
    ("AS", "Alias or type casting operator."),
    ("UNIQUE", "Ensures uniqueness constraint."),
    ("N", "Node type definition.\n\nSyntax: `N::TypeName \x7b field: Type \x7d`"),
    ("E", "Edge type definition.\n\nSyntax: `E::TypeName \x7b From: NodeType, To: NodeType \x7d`"),
    ("V", "Vector type definition.\n\nSyntax: `V::TypeName \x7b ... \x7d`"),
    ("Out", "Traverse outgoing edges.\n\nSyntax: `node::Out<EdgeType>`"),
    ("In", "Traverse incoming edges.\n\nSyntax: `node::In<EdgeType>`"),
    ("OutE", "Get outgoing edge objects.\n\nSyntax: `node::OutE<EdgeType>`"),
    ("InE", "Get incoming edge objects.\n\nSyntax: `node::InE<EdgeType>`"),
    ("FromN", "Get the source node of an edge."),
    ("ToN", "Get the target node of an edge."),
    ("FromV", "Get the source vertex of a vector edge."),
    ("ToV", "Get the target vertex of a vector edge."),
    ("ShortestPath", "Find shortest path between nodes."),
    ("ShortestPathBFS", "Find shortest path using BFS algorithm."),
    ("ShortestPathDijkstras", "Find shortest path using Dijkstra's algorithm."),
    ("ShortestPathAStar", "Find shortest path using A* algorithm."),
    ("COUNT", "Count the number of elements.\n\nSyntax: `collection::COUNT`"),
    ("RANGE", "Select a range of elements.\n\nSyntax: `::RANGE(start, end)`"),
    ("UPDATE", "Update node/edge properties.\n\nSyntax: `::UPDATE \x7b field: value \x7d`"),
    ("ID", "Get the unique identifier of a node/edge."),
    ("PREFILTER", "Pre-filter results before main query execution."),
    ("AGGREGATE_BY", "Aggregate results by a field."),
    ("GROUP_BY", "Group results by a field."),
    ("ORDER", "Order results.\n\nSyntax: `::ORDER(field, Asc|Desc)`"),
    ("GT", "Greater than comparison."),
    ("GTE", "Greater than or equal comparison."),
    ("LT", "Less than comparison."),
    ("LTE", "Less than or equal comparison."),
    ("EQ", "Equality comparison."),
    ("NEQ", "Not equal comparison."),
    ("CONTAINS", "Check if collection contains value."),
    ("IS_IN", "Check if value is in collection."),
    ("AddN", "Add a new node.\n\nSyntax: `AddN<NodeType> \x7b field: value \x7d`"),
    ("AddE", "Add a new edge.\n\nSyntax: `AddE<EdgeType> \x7b From: node1, To: node2 \x7d`"),
    ("AddV", "Add a new vector.\n\nSyntax: `AddV<VectorType> \x7b ... \x7d`"),
    ("BatchAddV", "Add multiple vectors in batch."),
    ("SearchV", "Search vectors by similarity.\n\nSyntax: `SearchV<VectorType>(query, k)`"),
    ("SearchBM25", "Search using BM25 algorithm."),
    ("Embed", "Generate embeddings for text."),
    ("UpsertN", "Insert or update a node."),
    ("UpsertE", "Insert or update an edge."),
    ("UpsertV", "Insert or update a vector."),
    ("RerankRRF", "Rerank results using Reciprocal Rank Fusion."),
    ("RerankMMR", "Rerank results using Maximal Marginal Relevance."),
    ("From", "Source node of an edge.\n\nSyntax: `From: NodeType`"),
    ("To", "Target node of an edge.\n\nSyntax: `To: NodeType`"),
    ("Properties", "Define edge properties."),
    ("INDEX", "Create an index on a field."),
    ("DEFAULT", "Set a default value for a field."),
    ("NOW", "Current timestamp function."),
    ("Asc", "Ascending order."),
    ("Desc", "Descending order."),
    ("ADD", "Addition operation."),
    ("SUB", "Subtraction operation."),
    ("MUL", "Multiplication operation."),
    ("DIV", "Division operation."),
    ("POW", "Power/exponentiation operation."),
    ("MOD", "Modulo operation."),
    ("ABS", "Absolute value."),
    ("SQRT", "Square root."),
    ("LN", "Natural logarithm."),
    ("LOG10", "Base-10 logarithm."),
    ("LOG", "Logarithm."),
    ("EXP", "Exponential function."),
    ("CEIL", "Ceiling function."),
    ("FLOOR", "Floor function."),
    ("ROUND", "Round to nearest integer."),
    ("SIN", "Sine function."),
    ("COS", "Cosine function."),
    ("TAN", "Tangent function."),
    ("ASIN", "Arc sine function."),
    ("ACOS", "Arc cosine function."),
    ("ATAN", "Arc tangent function."),
    ("ATAN2", "Two-argument arc tangent."),
    ("PI", "Mathematical constant pi."),
    ("MIN", "Minimum value."),
    ("MAX", "Maximum value."),
    ("SUM", "Sum of values."),
    ("AVG", "Average of values."),
    ("String", "String/text type."),
    ("Boolean", "Boolean (true/false) type."),
    ("F32", "32-bit floating point number."),
    ("F64", "64-bit floating point number."),
    ("I8", "8-bit signed integer."),
    ("I16", "16-bit signed integer."),
    ("I32", "32-bit signed integer."),
    ("I64", "64-bit signed integer."),
    ("U8", "8-bit unsigned integer."),
    ("U16", "16-bit unsigned integer."),
    ("U32", "32-bit unsigned integer."),
    ("U64", "64-bit unsigned integer."),
    ("U128", "128-bit unsigned integer."),
    ("Date", "Date/timestamp type."),
    ("Uuid", "UUID type.") ]

/-- `get_keyword_docs` (lines 698-870): exact lookup in the static table
(all keys are distinct, so association-list order is immaterial). -/
def get_keyword_docs (word : String) : Option String :=
  alookup keywordDocsTable word

/-- The `hover` handler's resolution chain (lines 1184-1248), with the hover
payload modelled as its markdown string: keyword docs first (wrapped with
the word as a heading), then schema type info, then variable type inference
(with the `**variable**` placeholder replaced by the word), then parameter
type, then field-context info; `none` when the cursor yields no word or
every resolver declines. -/
def hover (st : ServerState) (uri : String) (pos : LspPosition) :
    Option String :=
  match get_word_at_position st.documents uri pos with
  | none => none
  | some word =>
    match get_keyword_docs word with
    | some docs => some ("**" ++ word ++ "**\n\n" ++ docs)
    | none =>
    match get_type_hover_info st.parsed_cache uri word with
    | some type_info => some type_info
    | none =>
    match get_variable_type st.parsed_cache uri pos word with
    | some var_type =>
      some (var_type.replace "**variable**" ("**" ++ word ++ "**"))
    | none =>
    match get_parameter_type st.parsed_cache uri pos word with
    | some param_info => some param_info
    | none =>
    match get_field_context_hover st.documents st.parsed_cache uri pos word
      with
    | some field_info => some field_info
    | none => none

/-! ## Concrete fixtures used by witnesses and counterexamples -/

/-- A directory `/w` holding two recognized files, one of them readable. -/
def envW : Env :=
  { listing := fun d => if d = "/w" then ["/w/a.hx", "/w/b.hx"] else []
    disk := fun p => if p = "/w/a.hx" then some "disk text a" else none }

/-- A directory `/w` holding a single recognized file. -/
def envA : Env :=
  { listing := fun d => if d = "/w" then ["/w/a.hx"] else []
    disk := fun _ => none }

/-- An empty structured model. -/
def srcEmpty : Source := { schema := [], queries := [] }

/-- A structured model with one (empty) query, distinguishable from
`srcEmpty` by its query count. -/
def srcOne : Source :=
  { schema := []
    queries := [{ loc := { filepath := none, start := ⟨1, 1⟩, stop := ⟨2, 1⟩ }
                  parameters := [], statements := [] }] }

/-- The per-step observation used to state C7 via `List.findSome?`: an
`AddEdge` step yields its optional edge type. -/
def stepAddEdgeType : StepType → Option (Option String)
  | .addEdge et => some et
  | .other => none

/-- Modelled from the spec sentence behind C7 ("infer from its first step if
that step constructs an edge, else from the traversal's start-node kind"):
only the head of the step list is consulted. -/
def claimTraversalInfer (t : Traversal) : Option String :=
  match t.steps with
  | .addEdge (some e) :: _ => some ("**variable**: Edge<" ++ e ++ ">")
  | .addEdge none :: _ => some "**variable**: Edge"
  | _ =>
    match t.start with
    | .node nt => some ("**variable**: Node<" ++ nt ++ ">")
    | .edge et => some ("**variable**: Edge<" ++ et ++ ">")
    | .vector vt => some ("**variable**: Vector<" ++ vt ++ ">")
    | .searchVector (some vt) => some ("**variable**: Vector<" ++ vt ++ ">")
    | .searchVector none => some "**variable**: Vector"
    | .other => some "**variable**: Traversal"

/-- A traversal whose first step is not an edge construction but whose
second step is. -/
def travCE : Traversal :=
  { start := .node "Person", steps := [.other, .addEdge (some "Knows")] }

/-- An analyzer diagnostic carrying hint text. -/
def diagHinted : HxDiagnostic :=
  { location := { filepath := some "a.hx", start := ⟨3, 2⟩, stop := ⟨3, 7⟩ }
    severity := .error
    message := "bad thing"
    hint := some "try this" }

/-- An analyzer diagnostic for `b.hx`, also carrying hint text. -/
def diagB : HxDiagnostic :=
  { location := { filepath := some "b.hx", start := ⟨2, 4⟩, stop := ⟨2, 9⟩ }
    severity := .warning
    message := "unused thing"
    hint := some "remove it" }

/-- An analyzer diagnostic naming a file that is not a member. -/
def diagStray : HxDiagnostic :=
  { location := { filepath := some "zzz.hx", start := ⟨5, 1⟩, stop := ⟨5, 4⟩ }
    severity := .error
    message := "stray"
    hint := none }

/-- Modelled from the claim C2 wording: the union of the open documents in
the identifier's parent directory with a recognized extension and the
on-disk files in that directory with a recognized extension. -/
def claimMembersC2 (docs : List (String × String)) (env : Env)
    (uri : String) : List String :=
  ((docs.map Prod.fst).filter fun p =>
      parentDir p = parentDir uri && recognizedExt p) ++
    (env.listing (parentDir uri)).filter recognizedExt

/-- The declarative candidate of one entity kind: `i` is an occurrence of
the `K<` marker, no later occurrence exists, and `name` is the non-empty
all-word-character text from the marker up to the next `>`. -/
def CandSpec (k : Char) (text : List Char) (i : Nat) (name : List Char) :
    Prop :=
  ([k, '<'].isPrefixOf (text.drop i) = true) ∧
  (∀ j, i < j → [k, '<'].isPrefixOf (text.drop j) = false) ∧
  ∃ e, findChar '>' (text.drop (i + 2)) = some e ∧
    name = (text.drop (i + 2)).take e ∧ name ≠ [] ∧
    name.all isWordChar = true

/-! ## C1 — cache replacement policy -/

/-- C1 (amended): for every workspace key and every analysis run, a run in
which the parser succeeds replaces the cached model for that key —
regardless of whether the analyzer then succeeds or fails — and a run in
which the parser fails leaves the cached model exactly as it was before the
run. -/
theorem C1_cache_replaced_iff_parse_ok (env : Env)
    (parse_source : List HxFile → PResult) (analyze : Source → AResult)
    (st : ServerState) (uri : String) :
    (∀ msg,
      parse_source (buildFiles st.documents env (get_sibling_files env uri)) =
        PResult.err msg →
      (analyze_workspace env parse_source analyze st uri).1.parsed_cache =
        st.parsed_cache) ∧
    (∀ source,
      parse_source (buildFiles st.documents env (get_sibling_files env uri)) =
        PResult.ok source →
      (analyze_workspace env parse_source analyze st uri).1.parsed_cache =
        ainsert st.parsed_cache (parentDir uri) source) := by
  constructor <;> intro x hx <;> simp [analyze_workspace, hx]

/-- C1 witness: a concrete run whose parser succeeds while the analyzer
fails still overwrites the cache entry for `/w`. -/
theorem C1_witness :
    (analyze_workspace envW (fun _ => PResult.ok srcOne)
        (fun _ => AResult.err "semantic failure")
        { documents := [], parsed_cache := [("/w", srcEmpty)] }
        "/w/a.hx").1.parsed_cache =
      ainsert [("/w", srcEmpty)] (parentDir "/w/a.hx") srcOne :=
  (C1_cache_replaced_iff_parse_ok envW (fun _ => PResult.ok srcOne)
      (fun _ => AResult.err "semantic failure")
      { documents := [], parsed_cache := [("/w", srcEmpty)] }
      "/w/a.hx").2 srcOne rfl

/-- C1 counterexample to the claim as stated: with the cache holding
`srcEmpty` for `/w`, a run whose parser succeeds (producing `srcOne`) and
whose analyzer fails does NOT leave the cached model as it was — the entry
is overwritten. -/
theorem C1_counterexample :
    (analyze_workspace envW (fun _ => PResult.ok srcOne)
        (fun _ => AResult.err "semantic failure")
        { documents := [], parsed_cache := [("/w", srcEmpty)] }
        "/w/a.hx").1.parsed_cache ≠ [("/w", srcEmpty)] :=
  fun h =>
    absurd
      (congrArg
        (fun l => l.map fun e : String × Source => (e.1, e.2.queries.length))
        h)
      (by decide)

/-! ## C7 — traversal-expression type inference -/

/-- The step loop of the source equals the first `AddEdge` step found
anywhere in the step list. -/
theorem findAddEdgeStep_eq_findSome (steps : List StepType) :
    findAddEdgeStep steps = steps.findSome? stepAddEdgeType := by
  induction steps with
  | nil => rfl
  | cons s rest ih => cases s <;> simp [findAddEdgeStep, stepAddEdgeType, ih]

/-- C7 (amended): for a traversal right-hand side, inference yields an Edge
type from the FIRST edge-constructing (`AddEdge`) step found anywhere in the
step list — not only when it is the first step — and otherwise infers from
the traversal's start-node kind (node, edge, vector, search-vector; other
start kinds yield a generic traversal type). -/
theorem C7_traversal_first_edge_step (t : Traversal) :
    infer_expression_type (.traversal t) =
      match t.steps.findSome? stepAddEdgeType with
      | some (some e) => some ("**variable**: Edge<" ++ e ++ ">")
      | some none => some "**variable**: Edge"
      | none =>
        match t.start with
        | .node nt => some ("**variable**: Node<" ++ nt ++ ">")
        | .edge et => some ("**variable**: Edge<" ++ et ++ ">")
        | .vector vt => some ("**variable**: Vector<" ++ vt ++ ">")
        | .searchVector (some vt) => some ("**variable**: Vector<" ++ vt ++ ">")
        | .searchVector none => some "**variable**: Vector"
        | .other => some "**variable**: Traversal" := by
  simp only [infer_expression_type, findAddEdgeStep_eq_findSome]

/-- C7 counterexample to the claim as stated: on `travCE` the code infers an
Edge type from the second step, while the claimed first-step-only rule would
infer from the start node. -/
theorem C7_counterexample :
    infer_expression_type (.traversal travCE) =
        some "**variable**: Edge<Knows>" ∧
      claimTraversalInfer travCE = some "**variable**: Node<Person>" ∧
      ("**variable**: Edge<Knows>" : String) ≠ "**variable**: Node<Person>" :=
  ⟨rfl, rfl, by decide⟩

/-! ## Association-list and publish-loop lemmas -/

theorem alookup_mem {β : Type} {m : List (String × β)} {k : String} {v : β}
    (h : alookup m k = some v) : (k, v) ∈ m := by
  induction m with
  | nil => simp [alookup] at h
  | cons e rest ih =>
    obtain ⟨k', v'⟩ := e
    simp only [alookup] at h
    by_cases hk : k' = k
    · rw [if_pos hk] at h
      subst hk
      injection h with h
      subst h
      exact .head _
    · rw [if_neg hk] at h
      exact .tail _ (ih h)

theorem aremove_subset {β : Type} (m : List (String × β)) (k : String) :
    ∀ e, e ∈ aremove m k → e ∈ m := by
  induction m with
  | nil => intro e he; simp [aremove] at he
  | cons p rest ih =>
    obtain ⟨kp, vp⟩ := p
    intro e he
    simp only [aremove] at he
    by_cases hk : kp = k
    · rw [if_pos hk] at he
      exact .tail _ he
    · rw [if_neg hk] at he
      rcases List.mem_cons.mp he with h1 | h2
      · rw [h1]; exact .head _
      · exact .tail _ (ih _ h2)

theorem alookup_aremove_ne {β : Type} (m : List (String × β)) (k k' : String)
    (h : k' ≠ k) : alookup (aremove m k) k' = alookup m k' := by
  induction m with
  | nil => rfl
  | cons p rest ih =>
    obtain ⟨kp, vp⟩ := p
    simp only [aremove]
    by_cases hk : kp = k
    · rw [if_pos hk]
      have hne : ¬ kp = k' := fun hh => h (by rw [← hh]; exact hk)
      simp only [alookup, if_neg hne]
    · rw [if_neg hk]
      simp only [alookup]
      by_cases hk' : kp = k'
      · rw [if_pos hk', if_pos hk']
      · rw [if_neg hk', if_neg hk', ih]

/-- Every diagnostic in a published list comes from some list in the map
being published. -/
theorem publishAll_mem {files : List String}
    {m : List (String × List LspDiagnostic)} {f : String}
    {l : List LspDiagnostic} (h : (f, l) ∈ publishAll files m) :
    ∀ ld ∈ l, ∃ k l', (k, l') ∈ m ∧ ld ∈ l' := by
  induction files generalizing m with
  | nil => simp [publishAll] at h
  | cons g rest ih =>
    intro ld hld
    rcases List.mem_cons.mp h with hhead | htail
    · have hl : l = (alookup m g).getD [] := congrArg Prod.snd hhead
      cases hm : alookup m g with
      | none => rw [hl, hm] at hld; simp at hld
      | some l' =>
        refine ⟨g, l', alookup_mem hm, ?_⟩
        rwa [hl, hm] at hld
    · obtain ⟨k, l', hk, hld'⟩ := ih htail ld hld
      exact ⟨k, l', aremove_subset _ _ _ hk, hld'⟩

/-- Every element of a list in `apush m f d` comes from `m` or is `d`. -/
theorem apush_mem {β : Type} {m : List (String × List β)} {f : String}
    {d : β} {k : String} {l : List β} (h : (k, l) ∈ apush m f d) :
    ∀ x ∈ l, (∃ l0, (k, l0) ∈ m ∧ x ∈ l0) ∨ x = d := by
  induction m with
  | nil =>
    intro x hx
    simp only [apush, List.mem_singleton, Prod.mk.injEq] at h
    right
    rw [h.2] at hx
    simpa using hx
  | cons e rest ih =>
    intro x hx
    obtain ⟨ke, le⟩ := e
    simp only [apush] at h
    by_cases he : ke = f
    · rw [if_pos he] at h
      rcases List.mem_cons.mp h with hhead | htail
      · obtain ⟨hk, hl⟩ := Prod.mk.injEq .. ▸ hhead
        rw [hl] at hx
        rcases List.mem_append.mp hx with hx0 | hx1
        · exact .inl ⟨le, by rw [hk]; exact .head _, hx0⟩
        · exact .inr (by simpa using hx1)
      · exact .inl ⟨l, .tail _ htail, hx⟩
    · rw [if_neg he] at h
      rcases List.mem_cons.mp h with hhead | htail
      · obtain ⟨hk, hl⟩ := Prod.mk.injEq .. ▸ hhead
        exact .inl ⟨l, by rw [hk, ← hl]; exact .head _, hx⟩
      · rcases ih htail x hx with ⟨l0, h0, hx0⟩ | hxd
        · exact .inl ⟨l0, .tail _ h0, hx0⟩
        · exact .inr hxd

/-- Every diagnostic accumulated by the grouping loop is the translation of
some input diagnostic (or was already in the starting accumulator). -/
theorem group_foldl_mem {files : List String} {ds : List HxDiagnostic}
    {k : String} {l : List LspDiagnostic} :
    ∀ m0, (k, l) ∈ ds.foldl (groupStep files) m0 → ∀ x ∈ l,
      (∃ l0, (k, l0) ∈ m0 ∧ x ∈ l0) ∨ ∃ d ∈ ds, x = translate_diag d := by
  induction ds with
  | nil =>
    intro m0 h x hx
    exact .inl ⟨l, h, hx⟩
  | cons d rest ih =>
    intro m0 h x hx
    rcases ih (groupStep files m0 d) h x hx with ⟨l0, h0, hx0⟩ | ⟨d', hd', hx'⟩
    · unfold groupStep at h0
      cases ho : diagOwner files ((d.location.filepath).getD "") with
      | none =>
        rw [ho] at h0
        exact .inl ⟨l0, h0, hx0⟩
      | some f =>
        rw [ho] at h0
        rcases apush_mem h0 x hx0 with ⟨l1, h1, hx1⟩ | hxd
        · exact .inl ⟨l1, h1, hx1⟩
        · exact .inr ⟨d, List.mem_cons_self .., hxd⟩
    · exact .inr ⟨d', List.mem_cons_of_mem _ hd', hx'⟩

/-- The published pairs of a run are exactly `publishAll` of the computed
diagnostic map, in both parse outcomes. -/
theorem analyze_workspace_snd (env : Env)
    (parse_source : List HxFile → PResult) (analyze : Source → AResult)
    (st : ServerState) (uri : String) :
    (analyze_workspace env parse_source analyze st uri).2 =
      publishAll (get_sibling_files env uri)
        (computeDiagMap env parse_source analyze st uri) := by
  cases hp : parse_source (buildFiles st.documents env (get_sibling_files env uri)) <;>
    simp [analyze_workspace, hp]

/-- Publishing the empty map gives every member the empty list. -/
theorem publishAll_nil (files : List String) :
    publishAll files [] = files.map fun f => (f, []) := by
  induction files with
  | nil => rfl
  | cons f rest ih => simp [publishAll, alookup, aremove, ih]

/-- When every diagnostic is unattributable, the grouping loop leaves the
accumulator unchanged. -/
theorem group_foldl_none {files : List String} {ds : List HxDiagnostic}
    (h : ∀ d ∈ ds, diagOwner files ((d.location.filepath).getD "") = none) :
    ∀ m0, ds.foldl (groupStep files) m0 = m0 := by
  induction ds with
  | nil => intro m0; rfl
  | cons d rest ih =>
    intro m0
    have hstep : groupStep files m0 d = m0 := by
      unfold groupStep
      rw [h d (List.mem_cons_self ..)]
    rw [List.foldl_cons, hstep]
    exact ih (fun d' hd' => h d' (List.mem_cons_of_mem _ hd')) m0

/-! ## C9 — hint text -/

/-- C9 (amended): the published editor diagnostic's message is exactly the
analyzer diagnostic's message; hint text is never appended (the translation
never reads the hint field, and every published non-synthetic diagnostic is
the translation of an analyzer diagnostic). -/
theorem C9_hint_not_appended :
    (∀ d : HxDiagnostic, (translate_diag d).message = d.message) ∧
    (∀ (env : Env) (parse_source : List HxFile → PResult)
        (analyze : Source → AResult) (st : ServerState) (uri : String)
        (source : Source) (diags : List HxDiagnostic) (f : String)
        (l : List LspDiagnostic) (ld : LspDiagnostic),
      parse_source (buildFiles st.documents env (get_sibling_files env uri)) =
        PResult.ok source →
      analyze source = AResult.ok diags →
      (f, l) ∈ (analyze_workspace env parse_source analyze st uri).2 →
      ld ∈ l →
      ∃ d ∈ diags, ld = translate_diag d ∧ ld.message = d.message) := by
  refine ⟨fun d => rfl, ?_⟩
  intro env parse_source analyze st uri source diags f l ld hp ha hfl hld
  rw [analyze_workspace_snd] at hfl
  have hcd : computeDiagMap env parse_source analyze st uri =
      groupDiagnostics (get_sibling_files env uri) diags := by
    simp [computeDiagMap, hp, ha]
  rw [hcd] at hfl
  obtain ⟨k, l', hkl, hld'⟩ := publishAll_mem hfl ld hld
  rcases group_foldl_mem [] hkl ld hld' with ⟨l0, h0, _⟩ | ⟨d, hd, hx⟩
  · simp at h0
  · exact ⟨d, hd, hx, hx ▸ rfl⟩

/-- C9 counterexample to the claim as stated: on a diagnostic carrying hint
text, the published message is the plain message, not the message followed
by a blank line and the hint. -/
theorem C9_counterexample :
    (translate_diag diagHinted).message = "bad thing" ∧
    (translate_diag diagHinted).message ≠ "bad thing" ++ "\n\n" ++ "try this" :=
  ⟨rfl, by decide⟩

/-- C9 witness: concrete instantiation of both parts of the amended
theorem; the hinted diagnostic for `b.hx` is published with its message
unchanged. -/
theorem C9_witness :
    (translate_diag diagB).message = "unused thing" ∧
    (∃ d ∈ [diagB], translate_diag diagB = translate_diag d ∧
      (translate_diag diagB).message = d.message) :=
  ⟨C9_hint_not_appended.1 diagB,
    C9_hint_not_appended.2 envW (fun _ => PResult.ok srcEmpty)
      (fun _ => AResult.ok [diagB]) { documents := [], parsed_cache := [] }
      "/w/a.hx" srcEmpty [diagB] "/w/b.hx" [translate_diag diagB]
      (translate_diag diagB) rfl rfl (by decide) (by decide)⟩

/-! ## C10 — diagnostics with unmatched filenames are dropped -/

/-- C10: an analyzer diagnostic whose location carries a non-empty filename
equal to no member file's name is silently dropped, in whatever run it
occurs: the grouping iteration leaves the accumulator unchanged on it, it
contributes nothing to the grouped diagnostic map of an arbitrary mixed
run, and such a run publishes exactly what the same run without the
diagnostic publishes — it is published for no file of the workspace. -/
theorem C10_unmatched_diag_dropped :
    (∀ (files : List String) (m : List (String × List LspDiagnostic))
        (d : HxDiagnostic),
      (d.location.filepath).getD "" ≠ "" →
      (∀ p ∈ files, fileName p ≠ (d.location.filepath).getD "") →
      groupStep files m d = m) ∧
    (∀ (files : List String) (pre post : List HxDiagnostic)
        (d : HxDiagnostic),
      (d.location.filepath).getD "" ≠ "" →
      (∀ p ∈ files, fileName p ≠ (d.location.filepath).getD "") →
      groupDiagnostics files (pre ++ d :: post) =
        groupDiagnostics files (pre ++ post)) ∧
    (∀ (env : Env) (parse_source : List HxFile → PResult)
        (analyze : Source → AResult) (st : ServerState) (uri : String)
        (source : Source) (pre post : List HxDiagnostic) (d : HxDiagnostic),
      parse_source (buildFiles st.documents env (get_sibling_files env uri)) =
        PResult.ok source →
      analyze source = AResult.ok (pre ++ d :: post) →
      (d.location.filepath).getD "" ≠ "" →
      (∀ p ∈ get_sibling_files env uri,
        fileName p ≠ (d.location.filepath).getD "") →
      (analyze_workspace env parse_source analyze st uri).2 =
        publishAll (get_sibling_files env uri)
          (groupDiagnostics (get_sibling_files env uri) (pre ++ post))) := by
  have hstep : ∀ (files : List String)
      (m : List (String × List LspDiagnostic)) (d : HxDiagnostic),
      (d.location.filepath).getD "" ≠ "" →
      (∀ p ∈ files, fileName p ≠ (d.location.filepath).getD "") →
      groupStep files m d = m := by
    intro files m d h1 h2
    unfold groupStep
    have hnone : diagOwner files ((d.location.filepath).getD "") = none := by
      unfold diagOwner
      rw [List.find?_eq_none]
      intro p hp
      simp [h2 p hp, h1]
    rw [hnone]
  have hgroup : ∀ (files : List String) (pre post : List HxDiagnostic)
      (d : HxDiagnostic),
      (d.location.filepath).getD "" ≠ "" →
      (∀ p ∈ files, fileName p ≠ (d.location.filepath).getD "") →
      groupDiagnostics files (pre ++ d :: post) =
        groupDiagnostics files (pre ++ post) := by
    intro files pre post d h1 h2
    unfold groupDiagnostics
    rw [List.foldl_append, List.foldl_append, List.foldl_cons,
      hstep files _ d h1 h2]
  refine ⟨hstep, hgroup, ?_⟩
  intro env parse_source analyze st uri source pre post d hp ha h1 h2
  rw [analyze_workspace_snd]
  have hcd : computeDiagMap env parse_source analyze st uri =
      groupDiagnostics (get_sibling_files env uri) (pre ++ d :: post) := by
    simp [computeDiagMap, hp, ha]
  rw [hcd, hgroup _ pre post d h1 h2]

/-- C10 witness: a mixed run over the two-member workspace `/w` whose
diagnostics are one attributable diagnostic for `b.hx` and one stray naming
`zzz.hx` publishes exactly what the stray-free run publishes — the
attributed diagnostic on `b.hx`, the empty list on `a.hx`, and the stray in
no list. -/
theorem C10_witness :
    (analyze_workspace envW (fun _ => PResult.ok srcEmpty)
        (fun _ => AResult.ok [diagB, diagStray])
        { documents := [], parsed_cache := [] } "/w/a.hx").2 =
      [("/w/a.hx", []), ("/w/b.hx", [translate_diag diagB])] := by
  have h := C10_unmatched_diag_dropped.2.2 envW
    (fun _ => PResult.ok srcEmpty) (fun _ => AResult.ok [diagB, diagStray])
    { documents := [], parsed_cache := [] } "/w/a.hx" srcEmpty [diagB] []
    diagStray rfl rfl (by decide) (by decide)
  exact h.trans (by decide)

/-! ## C2 — workspace membership and member content -/

/-- C2 counterexample to the claim as stated: `/w/b.hx` is open with a
recognized extension in the identifier's parent directory, so the claimed
union contains it, but it is absent from the directory listing and the code
does not make it a member. -/
theorem C2_counterexample :
    "/w/b.hx" ∈ claimMembersC2 [("/w/b.hx", "N::B")] envA "/w/a.hx" ∧
      "/w/b.hx" ∉ get_sibling_files envA "/w/a.hx" := by decide

/-- C2 (amended): the workspace member set is exactly the on-disk directory
listing of the identifier's parent directory filtered to recognized
extensions (.hx/.hql) — open documents not present on disk are not members —
and each member's content fed to the parser is the open-buffer text when
that document is open, else the disk content, else the empty string. -/
theorem C2_member_set_and_content (env : Env) (st : ServerState)
    (uri : String) :
    (∀ p, p ∈ get_sibling_files env uri ↔
      p ∈ env.listing (parentDir uri) ∧ recognizedExt p = true) ∧
    buildFiles st.documents env (get_sibling_files env uri) =
      (get_sibling_files env uri).map fun p =>
        { name := fileName p
          content :=
            ((alookup st.documents p).orElse fun _ => env.disk p).getD "" } := by
  constructor
  · intro p
    exact List.mem_filter
  · unfold buildFiles
    apply List.map_congr_left
    intro p _
    cases h : alookup st.documents p <;> simp [h]

/-- C2 witness: in `/w` with `a.hx` open and `b.hx` unreadable, the bundle
holds the open text for `a.hx` and the empty string for `b.hx`. -/
theorem C2_witness :
    buildFiles [("/w/a.hx", "open text")] envW
        (get_sibling_files envW "/w/a.hx") =
      [{ name := "a.hx", content := "open text" },
        { name := "b.hx", content := "" }] := by
  have h := (C2_member_set_and_content envW
    { documents := [("/w/a.hx", "open text")], parsed_cache := [] }
    "/w/a.hx").2
  exact h.trans (by decide)

/-! ## C3 — every member is published exactly once -/

theorem publishAll_map_fst (files : List String)
    (m : List (String × List LspDiagnostic)) :
    (publishAll files m).map Prod.fst = files := by
  induction files generalizing m with
  | nil => rfl
  | cons f rest ih => simp [publishAll, ih]

theorem publishAll_eq_of_nodup (files : List String)
    (m : List (String × List LspDiagnostic)) (h : files.Nodup) :
    publishAll files m = files.map fun f => (f, (alookup m f).getD []) := by
  induction files generalizing m with
  | nil => rfl
  | cons f rest ih =>
    have hnd := List.nodup_cons.mp h
    simp only [publishAll, List.map_cons]
    congr 1
    rw [ih _ hnd.2]
    apply List.map_congr_left
    intro g hg
    rw [alookup_aremove_ne _ _ _ (fun he => hnd.1 (by rw [← he]; exact hg))]

/-- C3: on every analysis run, diagnostics are published exactly once for
every member file (the published keys are exactly the member list), and —
for duplicate-free listings, as a real directory read yields — each member
receives exactly the list the run attributed to it, the empty list when
nothing was. -/
theorem C3_publish_every_member (env : Env)
    (parse_source : List HxFile → PResult) (analyze : Source → AResult)
    (st : ServerState) (uri : String) :
    ((analyze_workspace env parse_source analyze st uri).2.map Prod.fst =
      get_sibling_files env uri) ∧
    ((get_sibling_files env uri).Nodup →
      (analyze_workspace env parse_source analyze st uri).2 =
        (get_sibling_files env uri).map fun f =>
          (f, (alookup (computeDiagMap env parse_source analyze st uri)
                f).getD [])) := by
  constructor
  · rw [analyze_workspace_snd]
    exact publishAll_map_fst _ _
  · intro h
    rw [analyze_workspace_snd]
    exact publishAll_eq_of_nodup _ _ h

/-- C3 witness: a run over `/w` attributing one diagnostic to `b.hx`
publishes that singleton for `b.hx` and the empty list for the clean member
`a.hx`. -/
theorem C3_witness :
    (analyze_workspace envW (fun _ => PResult.ok srcEmpty)
        (fun _ => AResult.ok [diagB])
        { documents := [], parsed_cache := [] } "/w/a.hx").2 =
      [("/w/a.hx", []), ("/w/b.hx", [translate_diag diagB])] := by
  have h := (C3_publish_every_member envW (fun _ => PResult.ok srcEmpty)
    (fun _ => AResult.ok [diagB]) { documents := [], parsed_cache := [] }
    "/w/a.hx").2 (by decide)
  exact h.trans (by decide)

/-! ## C4 — hover resolution order -/

/-- C4: when the cursor yields a word, hover resolution is attempted in the
fixed order keyword documentation, schema type documentation, variable type
inference, parameter type, contextual field type; the answer is the first
resolver's result (with the wrapping each branch applies), and when every
resolver declines the hover answer is `none` — a normal negative result. -/
theorem C4_hover_priority_chain (st : ServerState) (uri : String)
    (pos : LspPosition) (word : String)
    (hw : get_word_at_position st.documents uri pos = some word) :
    (∀ d, get_keyword_docs word = some d →
      hover st uri pos = some ("**" ++ word ++ "**\n\n" ++ d)) ∧
    (get_keyword_docs word = none →
      ∀ ti, get_type_hover_info st.parsed_cache uri word = some ti →
        hover st uri pos = some ti) ∧
    (get_keyword_docs word = none →
      get_type_hover_info st.parsed_cache uri word = none →
      ∀ v, get_variable_type st.parsed_cache uri pos word = some v →
        hover st uri pos =
          some (v.replace "**variable**" ("**" ++ word ++ "**"))) ∧
    (get_keyword_docs word = none →
      get_type_hover_info st.parsed_cache uri word = none →
      get_variable_type st.parsed_cache uri pos word = none →
      ∀ pi, get_parameter_type st.parsed_cache uri pos word = some pi →
        hover st uri pos = some pi) ∧
    (get_keyword_docs word = none →
      get_type_hover_info st.parsed_cache uri word = none →
      get_variable_type st.parsed_cache uri pos word = none →
      get_parameter_type st.parsed_cache uri pos word = none →
      ∀ fi, get_field_context_hover st.documents st.parsed_cache uri pos
          word = some fi →
        hover st uri pos = some fi) ∧
    (get_keyword_docs word = none →
      get_type_hover_info st.parsed_cache uri word = none →
      get_variable_type st.parsed_cache uri pos word = none →
      get_parameter_type st.parsed_cache uri pos word = none →
      get_field_context_hover st.documents st.parsed_cache uri pos word =
        none →
      hover st uri pos = none) := by
  refine ⟨?_, ?_, ?_, ?_, ?_, ?_⟩
  · intro d h1
    simp [hover, hw, h1]
  · intro h1 ti h2
    simp [hover, hw, h1, h2]
  · intro h1 h2 v h3
    simp [hover, hw, h1, h2, h3]
  · intro h1 h2 h3 pi h4
    simp [hover, hw, h1, h2, h3, h4]
  · intro h1 h2 h3 h4 fi h5
    simp [hover, hw, h1, h2, h3, h4, h5]
  · intro h1 h2 h3 h4 h5
    simp [hover, hw, h1, h2, h3, h4, h5]

/-- C4 witness: hovering the word `QUERY` resolves through the keyword
table, the first resolver of the chain. -/
theorem C4_witness :
    hover { documents := [("/w/a.hx", "QUERY f() =>")], parsed_cache := [] }
        "/w/a.hx" { line := 0, character := 2 } =
      some ("**" ++ "QUERY" ++ "**\n\n" ++
        "Defines a new query function.\n\nSyntax: `QUERY name(param: Type) => \x7b ... \x7d`") :=
  (C4_hover_priority_chain
      { documents := [("/w/a.hx", "QUERY f() =>")], parsed_cache := [] }
      "/w/a.hx" { line := 0, character := 2 } "QUERY" (by decide)).1
    "Defines a new query function.\n\nSyntax: `QUERY name(param: Type) => \x7b ... \x7d`"
    (by decide)

/-! ## C8 — error-location extraction and the synthetic parse diagnostic -/

theorem findChar_append_of_forall_ne (c : Char) (l r : List Char)
    (h : ∀ x ∈ l, x ≠ c) :
    findChar c (l ++ r) = (findChar c r).map fun i => l.length + i := by
  induction l with
  | nil =>
    cases hr : findChar c r <;> simp [hr]
  | cons d l ih =>
    have hd : d ≠ c := h d (List.mem_cons_self ..)
    have ht : ∀ x ∈ l, x ≠ c := fun x hx => h x (List.mem_cons_of_mem _ hx)
    have ih' := ih ht
    cases hr : findChar c r with
    | none =>
      rw [hr] at ih'
      rw [List.cons_append, findChar, if_neg hd, ih']
      rfl
    | some i =>
      rw [hr] at ih'
      rw [List.cons_append, findChar, if_neg hd, ih']
      show some (l.length + i + 1) = some ((d :: l).length + i)
      simp only [Option.some.injEq, List.length_cons]
      omega

theorem splitOnChar_of_forall_ne (sep : Char) (l : List Char)
    (h : ∀ x ∈ l, x ≠ sep) : splitOnChar sep l = [l] := by
  induction l with
  | nil => rfl
  | cons c l ih =>
    have hc : c ≠ sep := h c (List.mem_cons_self ..)
    have ht : ∀ x ∈ l, x ≠ sep := fun x hx => h x (List.mem_cons_of_mem _ hx)
    simp [splitOnChar, if_neg hc, ih ht]

theorem splitOnChar_append_sep (sep : Char) (l r : List Char)
    (h : ∀ x ∈ l, x ≠ sep) :
    splitOnChar sep (l ++ sep :: r) = l :: splitOnChar sep r := by
  induction l with
  | nil => simp [splitOnChar]
  | cons c l ih =>
    have hc : c ≠ sep := h c (List.mem_cons_self ..)
    have ht : ∀ x ∈ l, x ≠ sep := fun x hx => h x (List.mem_cons_of_mem _ hx)
    rw [List.cons_append]
    simp only [splitOnChar, if_neg hc, ih ht]

theorem isDigit_ne_newline {x : Char} (h : x.isDigit = true) : x ≠ '\n' :=
  fun he => by rw [he] at h; exact absurd h (by decide)

theorem isDigit_ne_colon {x : Char} (h : x.isDigit = true) : x ≠ ':' :=
  fun he => by rw [he] at h; exact absurd h (by decide)

/-- C8: `parse_error_location` returns `(0,0)` when the error text holds no
`--> ` marker; returns the embedded line and column each saturatingly
decremented when the first marker is followed by `line:column` and a
newline; and a parse failure over a non-empty workspace publishes exactly
one synthetic error diagnostic, placed at that position on the first member,
with every other member receiving the empty list. -/
theorem C8_parse_error_location_and_synthetic_diag :
    (∀ msg : String, findSub arrowChars msg.data = none →
      parse_error_location msg = (0, 0)) ∧
    (∀ (pre ls cs s : List Char) (l c : Nat),
      findSub arrowChars (pre ++ arrowChars ++ ls ++ ':' :: cs ++ '\n' :: s) =
        some pre.length →
      ls.all Char.isDigit = true → cs.all Char.isDigit = true →
      parseU32 ls = some l → parseU32 cs = some c →
      parse_error_location_chars
          (pre ++ arrowChars ++ ls ++ ':' :: cs ++ '\n' :: s) =
        (l - 1, c - 1)) ∧
    (∀ (msg : String),
      (mkParseErrDiag msg).range.start.line = (parse_error_location msg).1 ∧
      (mkParseErrDiag msg).range.start.character =
        (parse_error_location msg).2 ∧
      (mkParseErrDiag msg).severity = LspSeverity.error ∧
      (mkParseErrDiag msg).message = msg) ∧
    (∀ (env : Env) (parse_source : List HxFile → PResult)
        (analyze : Source → AResult) (st : ServerState) (uri msg f : String)
        (rest : List String),
      parse_source (buildFiles st.documents env (get_sibling_files env uri)) =
        PResult.err msg →
      get_sibling_files env uri = f :: rest →
      (analyze_workspace env parse_source analyze st uri).2 =
        (f, [mkParseErrDiag msg]) :: rest.map fun m => (m, [])) := by
  refine ⟨?_, ?_, ?_, ?_⟩
  · intro msg h
    simp only [parse_error_location, parse_error_location_chars, h]
  · intro pre ls cs s l c hfind hlsd hcsd hlsv hcsv
    have hlsne : ∀ x ∈ ls, x ≠ '\n' :=
      fun x hx => isDigit_ne_newline (List.all_eq_true.mp hlsd x hx)
    have hcsne : ∀ x ∈ cs, x ≠ '\n' :=
      fun x hx => isDigit_ne_newline (List.all_eq_true.mp hcsd x hx)
    have hlsnc : ∀ x ∈ ls, x ≠ ':' :=
      fun x hx => isDigit_ne_colon (List.all_eq_true.mp hlsd x hx)
    have hassoc : pre ++ arrowChars ++ ls ++ ':' :: cs ++ '\n' :: s =
        (pre ++ arrowChars) ++ ((ls ++ ':' :: cs) ++ '\n' :: s) := by
      simp [List.append_assoc]
    have hdrop :
        List.drop (pre.length + 4)
            (pre ++ arrowChars ++ ls ++ ':' :: cs ++ '\n' :: s) =
          (ls ++ ':' :: cs) ++ '\n' :: s := by
      rw [hassoc, List.drop_left' (by simp [arrowChars])]
    have hmid : ∀ x ∈ ls ++ ':' :: cs, x ≠ '\n' := by
      intro x hx
      rcases List.mem_append.mp hx with h1 | h2
      · exact hlsne x h1
      · rcases List.mem_cons.mp h2 with h3 | h4
        · rw [h3]; decide
        · exact hcsne x h4
    have hfc : findChar '\n' ((ls ++ ':' :: cs) ++ '\n' :: s) =
        some ((ls ++ ':' :: cs).length) := by
      rw [findChar_append_of_forall_ne _ _ _ hmid]
      show some ((ls ++ ':' :: cs).length + 0) = _
      rw [Nat.add_zero]
    have htake : List.take ((ls ++ ':' :: cs).length)
        ((ls ++ ':' :: cs) ++ '\n' :: s) = ls ++ ':' :: cs :=
      List.take_left _ _
    have hsplit : splitOnChar ':' (ls ++ ':' :: cs) = [ls, cs] := by
      rw [splitOnChar_append_sep _ _ _ hlsnc,
        splitOnChar_of_forall_ne _ _
          (fun x hx => isDigit_ne_colon (List.all_eq_true.mp hcsd x hx))]
    simp only [parse_error_location_chars, hfind, hdrop, hfc, htake, hsplit,
      hlsv, hcsv]
  · intro msg
    exact ⟨rfl, rfl, rfl, rfl⟩
  · intro env parse_source analyze st uri msg f rest hp hfiles
    rw [analyze_workspace_snd]
    rw [hfiles] at hp
    have hcd : computeDiagMap env parse_source analyze st uri =
        [(f, [mkParseErrDiag msg])] := by
      simp [computeDiagMap, hfiles, hp]
    rw [hcd, hfiles]
    simp [publishAll, alookup, aremove, publishAll_nil]

/-- C8 witness: concrete instantiations — no marker yields `(0,0)`, the
marker `--> 19:3` yields `(18,2)`, and a parse failure over `/w` publishes
exactly one synthetic diagnostic on the first member. -/
theorem C8_witness :
    parse_error_location "no marker at all" = (0, 0) ∧
    parse_error_location_chars
        ("err ".data ++ arrowChars ++ "19".data ++ ':' :: "3".data ++
          '\n' :: " rest".data) = (18, 2) ∧
    (analyze_workspace envW (fun _ => PResult.err "err --> 19:3\nrest")
        (fun _ => AResult.ok []) { documents := [], parsed_cache := [] }
        "/w/a.hx").2 =
      ("/w/a.hx", [mkParseErrDiag "err --> 19:3\nrest"]) ::
        ["/w/b.hx"].map fun m => (m, []) :=
  ⟨C8_parse_error_location_and_synthetic_diag.1 "no marker at all" (by decide),
    C8_parse_error_location_and_synthetic_diag.2.1 "err ".data "19".data
      "3".data " rest".data 19 3 (by decide) (by decide) (by decide)
      (by decide) (by decide),
    C8_parse_error_location_and_synthetic_diag.2.2.2 envW
      (fun _ => PResult.err "err --> 19:3\nrest") (fun _ => AResult.ok [])
      { documents := [], parsed_cache := [] } "/w/a.hx" "err --> 19:3\nrest"
      "/w/a.hx" ["/w/b.hx"] rfl rfl⟩

/-! ## C5 — the word under the cursor -/

theorem scanLeft_le (line : List Char) : ∀ c, scanLeft line c ≤ c := by
  intro c
  induction c with
  | zero => exact Nat.le_refl 0
  | succ s ih =>
    cases h : isWordChar (line.getD s ' ') with
    | false =>
      rw [scanLeft, if_neg (by rw [h]; exact Bool.false_ne_true)]
    | true =>
      rw [scanLeft, if_pos h]
      exact Nat.le_trans ih (Nat.le_succ s)

theorem scanLeft_words (line : List Char) :
    ∀ c i, scanLeft line c ≤ i → i < c →
      isWordChar (line.getD i ' ') = true := by
  intro c
  induction c with
  | zero => intro i _ h2; omega
  | succ s ih =>
    intro i h1 h2
    cases h : isWordChar (line.getD s ' ') with
    | false =>
      rw [scanLeft, if_neg (by rw [h]; exact Bool.false_ne_true)] at h1
      omega
    | true =>
      rw [scanLeft, if_pos h] at h1
      rcases Nat.lt_succ_iff_lt_or_eq.mp h2 with h3 | h3
      · exact ih i h1 h3
      · rw [h3]; exact h

theorem scanLeft_boundary (line : List Char) :
    ∀ c, scanLeft line c = 0 ∨
      isWordChar (line.getD (scanLeft line c - 1) ' ') = false := by
  intro c
  induction c with
  | zero => exact .inl rfl
  | succ s ih =>
    cases h : isWordChar (line.getD s ' ') with
    | false =>
      right
      rw [scanLeft, if_neg (by rw [h]; exact Bool.false_ne_true)]
      exact h
    | true =>
      rw [scanLeft, if_pos h]
      exact ih

theorem scanLeft_eq_iff (line : List Char) (c : Nat) :
    scanLeft line c = c ↔
      (c = 0 ∨ isWordChar (line.getD (c - 1) ' ') = false) := by
  cases c with
  | zero => simp [scanLeft]
  | succ s =>
    cases h : isWordChar (line.getD s ' ') with
    | false =>
      rw [scanLeft, if_neg (by rw [h]; exact Bool.false_ne_true)]
      constructor
      · intro _
        exact .inr h
      · intro _
        rfl
    | true =>
      rw [scanLeft, if_pos h]
      have hle := scanLeft_le line s
      constructor
      · intro h1; omega
      · rintro (h1 | h1)
        · omega
        · simp only [Nat.succ_sub_one] at h1
          rw [h1] at h
          exact absurd h (by simp)

theorem scanRightAux_ge (line : List Char) :
    ∀ fuel e, e ≤ scanRightAux line fuel e := by
  intro fuel
  induction fuel with
  | zero => intro e; exact Nat.le_refl e
  | succ f ih =>
    intro e
    unfold scanRightAux
    split
    · split
      · exact Nat.le_trans (Nat.le_succ e) (ih (e + 1))
      · exact Nat.le_refl e
    · exact Nat.le_refl e

theorem scanRightAux_le_len (line : List Char) :
    ∀ fuel e, e ≤ line.length → scanRightAux line fuel e ≤ line.length := by
  intro fuel
  induction fuel with
  | zero => intro e he; exact he
  | succ f ih =>
    intro e he
    unfold scanRightAux
    split
    · split
      · exact ih (e + 1) (by omega)
      · exact he
    · exact he

theorem scanRightAux_words (line : List Char) :
    ∀ fuel e i, e ≤ i → i < scanRightAux line fuel e →
      isWordChar (line.getD i ' ') = true := by
  intro fuel
  induction fuel with
  | zero =>
    intro e i h1 h2
    simp only [scanRightAux] at h2
    omega
  | succ f ih =>
    intro e i h1 h2
    by_cases hlen : e < line.length
    · cases hw : isWordChar (line.getD e ' ') with
      | false =>
        rw [scanRightAux, if_pos hlen,
          if_neg (by rw [hw]; exact Bool.false_ne_true)] at h2
        omega
      | true =>
        rw [scanRightAux, if_pos hlen, if_pos hw] at h2
        rcases Nat.eq_or_lt_of_le h1 with h3 | h3
        · rw [← h3]; exact hw
        · exact ih (e + 1) i h3 h2
    · rw [scanRightAux, if_neg hlen] at h2
      omega

theorem scanRightAux_boundary (line : List Char) :
    ∀ fuel e, line.length ≤ fuel + e →
      scanRightAux line fuel e < line.length →
      isWordChar (line.getD (scanRightAux line fuel e) ' ') = false := by
  intro fuel
  induction fuel with
  | zero =>
    intro e hf h2
    simp only [scanRightAux] at h2 ⊢
    omega
  | succ f ih =>
    intro e hf h2
    by_cases hlen : e < line.length
    · cases hw : isWordChar (line.getD e ' ') with
      | false =>
        rw [scanRightAux, if_pos hlen,
          if_neg (by rw [hw]; exact Bool.false_ne_true)]
        exact hw
      | true =>
        rw [scanRightAux, if_pos hlen, if_pos hw] at h2 ⊢
        exact ih (e + 1) (by omega) h2
    · rw [scanRightAux, if_neg hlen] at h2
      omega

theorem scanRightAux_eq_iff (line : List Char) :
    ∀ fuel e, e ≤ line.length → line.length ≤ fuel + e →
      (scanRightAux line fuel e = e ↔
        (e = line.length ∨ isWordChar (line.getD e ' ') = false)) := by
  intro fuel
  induction fuel with
  | zero =>
    intro e he hf
    simp only [scanRightAux]
    have : e = line.length := by omega
    simp [this]
  | succ f ih =>
    intro e he hf
    by_cases hlen : e < line.length
    · cases hw : isWordChar (line.getD e ' ') with
      | false =>
        rw [scanRightAux, if_pos hlen,
          if_neg (by rw [hw]; exact Bool.false_ne_true)]
        exact iff_of_true rfl (.inr rfl)
      | true =>
        rw [scanRightAux, if_pos hlen, if_pos hw]
        have hge := scanRightAux_ge line f (e + 1)
        constructor
        · intro h1
          omega
        · rintro (h1 | h1)
          · omega
          · exact absurd h1 (by decide)
    · have heq : e = line.length := by omega
      rw [scanRightAux, if_neg hlen]
      exact iff_of_true rfl (.inl heq)

/-- C5: at a cursor on an existing line with column within the line length,
the scans delimit a span `[s, e)` around the cursor consisting solely of
word characters and extendable in neither direction (the maximal
alphanumeric-or-underscore span containing the cursor);
`get_word_at_position` returns exactly its text, and returns no word exactly
when the span is empty, i.e. when both neighbours of the cursor fail to be
word characters. -/
theorem C5_word_at_position_maximal_span (docs : List (String × String))
    (uri : String) (pos : LspPosition) (doc : String) (line : List Char)
    (hd : alookup docs uri = some doc)
    (hl : (rustLines doc.data).get? pos.line = some line)
    (hc : pos.character ≤ line.length) :
    scanLeft line pos.character ≤ pos.character ∧
    pos.character ≤ scanRight line pos.character ∧
    scanRight line pos.character ≤ line.length ∧
    (∀ i, scanLeft line pos.character ≤ i →
      i < scanRight line pos.character →
      isWordChar (line.getD i ' ') = true) ∧
    (scanLeft line pos.character = 0 ∨
      isWordChar (line.getD (scanLeft line pos.character - 1) ' ') = false) ∧
    (scanRight line pos.character < line.length →
      isWordChar (line.getD (scanRight line pos.character) ' ') = false) ∧
    get_word_at_position docs uri pos =
      (if scanLeft line pos.character = scanRight line pos.character then
        none
       else
        some (String.mk ((line.drop (scanLeft line pos.character)).take
          (scanRight line pos.character - scanLeft line pos.character)))) ∧
    (scanLeft line pos.character = scanRight line pos.character ↔
      ((pos.character = 0 ∨
          isWordChar (line.getD (pos.character - 1) ' ') = false) ∧
        (pos.character = line.length ∨
          isWordChar (line.getD pos.character ' ') = false))) := by
  have hge : pos.character ≤ scanRight line pos.character :=
    scanRightAux_ge line line.length pos.character
  have hlef : scanLeft line pos.character ≤ pos.character :=
    scanLeft_le line pos.character
  have hlen : scanRight line pos.character ≤ line.length :=
    scanRightAux_le_len line line.length pos.character hc
  refine ⟨hlef, hge, hlen, ?_, scanLeft_boundary line pos.character, ?_, ?_, ?_⟩
  · intro i h1 h2
    rcases Nat.lt_or_ge i pos.character with h3 | h3
    · exact scanLeft_words line pos.character i h1 h3
    · exact scanRightAux_words line line.length pos.character i h3 h2
  · intro hlt
    exact scanRightAux_boundary line line.length pos.character
      (by omega) hlt
  · simp only [get_word_at_position, hd, hl]
    rw [if_neg (by omega)]
  · have hL := scanLeft_eq_iff line pos.character
    have hR := scanRightAux_eq_iff line line.length pos.character hc
      (by omega)
    constructor
    · intro hse
      have h1 : scanLeft line pos.character = pos.character := by omega
      have h2 : scanRight line pos.character = pos.character := by
        have : scanRightAux line line.length pos.character =
          scanRight line pos.character := rfl
        omega
      exact ⟨hL.mp h1, hR.mp h2⟩
    · rintro ⟨h1, h2⟩
      have h3 : scanLeft line pos.character = pos.character := hL.mpr h1
      have h4 : scanRightAux line line.length pos.character =
        pos.character := hR.mpr h2
      have h5 : scanRightAux line line.length pos.character =
        scanRight line pos.character := rfl
      omega

/-- C5 witness: on the line `foo bar_9 baz` with the cursor at column 5, the
scans delimit `bar_9`, and `get_word_at_position` returns it. -/
theorem C5_witness :
    get_word_at_position [("/w/a.hx", "foo bar_9 baz")] "/w/a.hx"
        { line := 0, character := 5 } = some "bar_9" := by
  have h := (C5_word_at_position_maximal_span
    [("/w/a.hx", "foo bar_9 baz")] "/w/a.hx" { line := 0, character := 5 }
    "foo bar_9 baz" "foo bar_9 baz".data (by decide) (by decide)
    (by decide)).2.2.2.2.2.2.1
  exact h.trans (by decide)

/-! ## C6 — the bracket context picks the rightmost marker -/

theorem rfindAux_shift (pat : List Char) :
    ∀ (text : List Char) (i : Nat),
      rfindAux pat text i = (rfindAux pat text 0).map fun j => j + i := by
  intro text
  induction text with
  | nil =>
    intro i
    unfold rfindAux
    by_cases h : pat = []
    · rw [if_pos h, if_pos h]
      show some i = some (0 + i)
      congr 1
      omega
    · rw [if_neg h, if_neg h]
      rfl
  | cons c cs ih =>
    intro i
    rw [rfindAux, rfindAux]
    simp only [Nat.zero_add]
    rw [ih (i + 1), ih 1]
    cases h : rfindAux pat cs 0 with
    | some j =>
      show some (j + (i + 1)) = some (j + 1 + i)
      congr 1
      omega
    | none =>
      cases hp : pat.isPrefixOf (c :: cs) with
      | true =>
        show some i = some (0 + i)
        congr 1
        omega
      | false => rfl

/-- Unfolding rule for `rfind` on a cons cell, in terms of the tail's
result. -/
theorem rfindSub_cons (pat : List Char) (c : Char) (cs : List Char) :
    rfindSub pat (c :: cs) =
      match rfindSub pat cs with
      | some j => some (j + 1)
      | none => if pat.isPrefixOf (c :: cs) = true then some 0 else none := by
  unfold rfindSub
  rw [rfindAux, rfindAux_shift pat cs 1]
  cases h : rfindAux pat cs 0 with
  | some j => rfl
  | none => rfl

/-- When `rfind` reports no occurrence, the pattern occurs nowhere. -/
theorem rfindSub_none (pat : List Char) (hpat : pat ≠ []) :
    ∀ text, rfindSub pat text = none →
      ∀ j, pat.isPrefixOf (text.drop j) = false := by
  intro text
  induction text with
  | nil =>
    intro _ j
    cases pat with
    | nil => exact absurd rfl hpat
    | cons p ps => simp [List.isPrefixOf]
  | cons c cs ih =>
    intro h j
    rw [rfindSub_cons] at h
    cases h0 : rfindSub pat cs with
    | some j0 => rw [h0] at h; cases h
    | none =>
      rw [h0] at h
      cases hp : pat.isPrefixOf (c :: cs) with
      | true => rw [hp] at h; simp at h
      | false =>
        cases j with
        | zero => exact hp
        | succ j' => exact ih h0 j'

/-- When `rfind` reports an occurrence, it is one, and it is the last one. -/
theorem rfindSub_some (pat : List Char) (hpat : pat ≠ []) :
    ∀ text j, rfindSub pat text = some j →
      pat.isPrefixOf (text.drop j) = true ∧
        ∀ j', j < j' → pat.isPrefixOf (text.drop j') = false := by
  intro text
  induction text with
  | nil =>
    intro j h
    unfold rfindSub rfindAux at h
    rw [if_neg hpat] at h
    cases h
  | cons c cs ih =>
    intro j h
    rw [rfindSub_cons] at h
    cases h0 : rfindSub pat cs with
    | some j0 =>
      rw [h0] at h
      injection h with h
      obtain ⟨hpre, hmax⟩ := ih j0 h0
      subst h
      constructor
      · exact hpre
      · intro j' hj'
        cases j' with
        | zero => omega
        | succ j'' => exact hmax j'' (by omega)
    | none =>
      rw [h0] at h
      cases hp : pat.isPrefixOf (c :: cs) with
      | false => rw [hp] at h; simp at h
      | true =>
        rw [hp, if_pos rfl] at h
        injection h with h
        subst h
        constructor
        · exact hp
        · intro j' hj'
          cases j' with
          | zero => omega
          | succ j'' => exact rfindSub_none pat hpat cs h0 j''

/-- The code's per-kind candidate is exactly the declarative candidate. -/
theorem candidateFor_iff (k : Char) (text : List Char) (i : Nat)
    (ks ns : String) :
    candidateFor k text = some (i, ks, ns) ↔
      ks = String.mk [k] ∧ ∃ name, ns = String.mk name ∧
        CandSpec k text i name := by
  constructor
  · intro h
    cases hr : rfindSub [k, '<'] text with
    | none => simp [candidateFor, hr] at h
    | some start =>
      simp only [candidateFor, hr] at h
      cases hf : findChar '>' (text.drop (start + 2)) with
      | none => simp [hf] at h
      | some e =>
        simp only [hf] at h
        split at h
        · rename_i hv
          injection h with h
          have hi : start = i := congrArg Prod.fst h
          have hks : ks = String.mk [k] :=
            (congrArg (fun p : Nat × String × String => p.2.1) h).symm
          have hns : ns = String.mk ((text.drop (start + 2)).take e) :=
            (congrArg (fun p : Nat × String × String => p.2.2) h).symm
          subst hi
          obtain ⟨hpre, hmax⟩ :=
            rfindSub_some [k, '<'] (by simp) text start hr
          exact ⟨hks, (text.drop (start + 2)).take e, hns,
            hpre, hmax, e, hf, rfl, hv.1, hv.2⟩
        · exact absurd h (by simp)
  · rintro ⟨hks, name, hns, hpre, hmax, e, hfc, hname, hne, hall⟩
    have hr : rfindSub [k, '<'] text = some i := by
      cases hr0 : rfindSub [k, '<'] text with
      | none =>
        have := rfindSub_none [k, '<'] (by simp) text hr0 i
        rw [this] at hpre
        exact absurd hpre Bool.false_ne_true
      | some j =>
        obtain ⟨hp2, hm2⟩ := rfindSub_some [k, '<'] (by simp) text j hr0
        rcases Nat.lt_trichotomy i j with hij | hij | hij
        · rw [hmax j hij] at hp2
          exact absurd hp2 Bool.false_ne_true
        · rw [hij]
        · rw [hm2 i hij] at hpre
          exact absurd hpre Bool.false_ne_true
    simp only [candidateFor, hr, hfc]
    split
    · rw [hks, hns, hname]
    · rename_i hv
      exact absurd ⟨hname ▸ hne, hname ▸ hall⟩ hv

theorem marker_head {k : Char} {l : List Char}
    (h : [k, '<'].isPrefixOf l = true) : ∃ t, l = k :: '<' :: t := by
  rw [List.isPrefixOf_iff_prefix] at h
  obtain ⟨t, ht⟩ := h
  exact ⟨t, ht.symm⟩

/-- Two kinds' declarative candidates never share a marker position. -/
theorem CandSpec_kind_eq {k k' : Char} {text : List Char} {i : Nat}
    {n n' : List Char} (h1 : CandSpec k text i n)
    (h2 : CandSpec k' text i n') : k = k' := by
  obtain ⟨t, ht⟩ := marker_head h1.1
  obtain ⟨t', ht'⟩ := marker_head h2.1
  rw [ht] at ht'
  simp only [List.cons.injEq] at ht'
  exact ht'.1

/-- One kind's declarative candidate position is unique. -/
theorem CandSpec_pos_unique {k : Char} {text : List Char} {i i' : Nat}
    {n n' : List Char} (h1 : CandSpec k text i n)
    (h2 : CandSpec k text i' n') : i = i' := by
  obtain ⟨hp1, hm1, -⟩ := h1
  obtain ⟨hp2, hm2, -⟩ := h2
  rcases Nat.lt_trichotomy i i' with h | h | h
  · rw [hm1 i' h] at hp2
    exact absurd hp2 Bool.false_ne_true
  · exact h
  · rw [hm2 i h] at hp1
    exact absurd hp1 Bool.false_ne_true

theorem candidateFor_of_CandSpec {k : Char} {text : List Char} {i : Nat}
    {name : List Char} (h : CandSpec k text i name) :
    candidateFor k text = some (i, String.mk [k], String.mk name) :=
  (candidateFor_iff k text i (String.mk [k]) (String.mk name)).mpr
    ⟨rfl, name, rfl, h⟩

theorem CandSpec_of_candidateFor {k : Char} {text : List Char} {i : Nat}
    {ks ns : String} (h : candidateFor k text = some (i, ks, ns)) :
    ∃ name, CandSpec k text i name := by
  obtain ⟨-, name, -, hc⟩ := (candidateFor_iff k text i ks ns).mp h
  exact ⟨name, hc⟩

theorem CandSpec_pos_eq {k : Char} {text : List Char} {i i' : Nat}
    {ks ns : String} {name' : List Char}
    (h : candidateFor k text = some (i, ks, ns))
    (h' : CandSpec k text i' name') : i' = i := by
  obtain ⟨name, hc⟩ := CandSpec_of_candidateFor h
  exact CandSpec_pos_unique h' hc

theorem CandSpec_none {k : Char} {text : List Char} {i' : Nat}
    {name' : List Char} (h : candidateFor k text = none)
    (h' : CandSpec k text i' name') : False := by
  have hc := candidateFor_of_CandSpec h'
  rw [h] at hc
  cases hc

theorem CandSpec_pos_ne {k k' : Char} {text : List Char} {i : Nat}
    {n n' : List Char} (hk : k ≠ k') (h1 : CandSpec k text i n)
    (h2 : CandSpec k' text i n') : False :=
  hk (CandSpec_kind_eq h1 h2)

/-- Domination helper: when every other kind's code candidate is absent or
sits strictly left of `i`, every other kind's declarative candidate sits
strictly left of `i`. -/
theorem C6_pick {text : List Char} {k : Char} {i : Nat}
    (hdom : ∀ k', k' ∈ (['N', 'E', 'V'] : List Char) → k' ≠ k →
      (candidateFor k' text = none ∨
        ∃ i2 x y, candidateFor k' text = some (i2, x, y) ∧ i2 < i)) :
    ∀ k' i' name', k' ∈ (['N', 'E', 'V'] : List Char) → k' ≠ k →
      CandSpec k' text i' name' → i' < i := by
  intro k' i' name' hmem hne hcs
  rcases hdom k' hmem hne with hnone | ⟨i2, x, y, hsome, hlt⟩
  · exact absurd hcs (fun hc => CandSpec_none hnone hc)
  · have := CandSpec_pos_eq hsome hcs
    omega

/-- C6: `find_context_type` yields no context exactly when no entity kind
has a candidate (where a kind's candidate examines only the RIGHTMOST
occurrence of its `K<` marker); each kind's candidate is exactly the
declarative rightmost-marker candidate `CandSpec`; and a returned
kind/type-name pair always stems from a candidate whose marker occurs
strictly later in the text than every other kind's candidate. -/
theorem C6_context_type_rightmost (text : String) :
    (find_context_type text = none ↔
      candidateFor 'N' text.data = none ∧ candidateFor 'E' text.data = none ∧
        candidateFor 'V' text.data = none) ∧
    (∀ (k : Char) (i : Nat) (ks ns : String),
      candidateFor k text.data = some (i, ks, ns) ↔
        (ks = String.mk [k] ∧ ∃ name, ns = String.mk name ∧
          CandSpec k text.data i name)) ∧
    (∀ ks ns, find_context_type text = some (ks, ns) →
      ∃ k i name, k ∈ (['N', 'E', 'V'] : List Char) ∧ ks = String.mk [k] ∧
        ns = String.mk name ∧ CandSpec k text.data i name ∧
        ∀ k' i' name', k' ∈ (['N', 'E', 'V'] : List Char) → k' ≠ k →
          CandSpec k' text.data i' name' → i' < i) := by
  refine ⟨?_, fun k i ks ns => candidateFor_iff k text.data i ks ns, ?_⟩
  · rcases hN : candidateFor 'N' text.data with _ | ⟨iN, kN, nN⟩ <;>
      rcases hE : candidateFor 'E' text.data with _ | ⟨iE, kE, nE⟩ <;>
        rcases hV : candidateFor 'V' text.data with _ | ⟨iV, kV, nV⟩ <;>
          simp only [find_context_type, List.foldl_cons, List.foldl_nil, hN,
            hE, hV] <;>
          (try split_ifs) <;> (try simp) <;> (try split_ifs) <;> simp
  · intro ks ns hres
    rcases hN : candidateFor 'N' text.data with _ | ⟨iN, kN, nN⟩ <;>
      rcases hE : candidateFor 'E' text.data with _ | ⟨iE, kE, nE⟩ <;>
        rcases hV : candidateFor 'V' text.data with _ | ⟨iV, kV, nV⟩ <;>
          simp only [find_context_type, List.foldl_cons, List.foldl_nil, hN,
            hE, hV] at hres
    · exact absurd hres (by simp)
    · -- only V present
      simp only [Option.some.injEq, Prod.mk.injEq] at hres
      obtain ⟨hks, hns⟩ := hres
      obtain ⟨hkV, nameV, hnV, hcsV⟩ := (candidateFor_iff _ _ _ _ _).mp hV
      refine ⟨'V', iV, nameV, by decide, by rw [← hks, hkV],
        by rw [← hns, hnV], hcsV, C6_pick ?_⟩
      intro k' hmem hne
      simp at hmem
      rcases hmem with rfl | rfl | rfl
      · exact .inl hN
      · exact .inl hE
      · exact absurd rfl hne
    · -- only E present
      simp only [Option.some.injEq, Prod.mk.injEq] at hres
      obtain ⟨hks, hns⟩ := hres
      obtain ⟨hkE, nameE, hnE, hcsE⟩ := (candidateFor_iff _ _ _ _ _).mp hE
      refine ⟨'E', iE, nameE, by decide, by rw [← hks, hkE],
        by rw [← hns, hnE], hcsE, C6_pick ?_⟩
      intro k' hmem hne
      simp at hmem
      rcases hmem with rfl | rfl | rfl
      · exact .inl hN
      · exact absurd rfl hne
      · exact .inl hV
    · -- E and V present
      obtain ⟨hkE, nameE, hnE, hcsE⟩ := (candidateFor_iff _ _ _ _ _).mp hE
      obtain ⟨hkV, nameV, hnV, hcsV⟩ := (candidateFor_iff _ _ _ _ _).mp hV
      split_ifs at hres with hc
      · -- V wins
        simp only [Option.some.injEq, Prod.mk.injEq] at hres
        obtain ⟨hks, hns⟩ := hres
        refine ⟨'V', iV, nameV, by decide, by rw [← hks, hkV],
          by rw [← hns, hnV], hcsV, C6_pick ?_⟩
        intro k' hmem hne
        simp at hmem
        rcases hmem with rfl | rfl | rfl
        · exact .inl hN
        · exact .inr ⟨iE, kE, nE, hE, by omega⟩
        · exact absurd rfl hne
      · -- E kept
        simp only [Option.some.injEq, Prod.mk.injEq] at hres
        obtain ⟨hks, hns⟩ := hres
        have hneq : iV ≠ iE := fun heq =>
          CandSpec_pos_ne (by decide) (heq ▸ hcsV) hcsE
        refine ⟨'E', iE, nameE, by decide, by rw [← hks, hkE],
          by rw [← hns, hnE], hcsE, C6_pick ?_⟩
        intro k' hmem hne
        simp at hmem
        rcases hmem with rfl | rfl | rfl
        · exact .inl hN
        · exact absurd rfl hne
        · exact .inr ⟨iV, kV, nV, hV, by omega⟩
    · -- only N present
      simp only [Option.some.injEq, Prod.mk.injEq] at hres
      obtain ⟨hks, hns⟩ := hres
      obtain ⟨hkN, nameN, hnN, hcsN⟩ := (candidateFor_iff _ _ _ _ _).mp hN
      refine ⟨'N', iN, nameN, by decide, by rw [← hks, hkN],
        by rw [← hns, hnN], hcsN, C6_pick ?_⟩
      intro k' hmem hne
      simp at hmem
      rcases hmem with rfl | rfl | rfl
      · exact absurd rfl hne
      · exact .inl hE
      · exact .inl hV
    · -- N and V present
      obtain ⟨hkN, nameN, hnN, hcsN⟩ := (candidateFor_iff _ _ _ _ _).mp hN
      obtain ⟨hkV, nameV, hnV, hcsV⟩ := (candidateFor_iff _ _ _ _ _).mp hV
      split_ifs at hres with hc
      · -- V wins
        simp only [Option.some.injEq, Prod.mk.injEq] at hres
        obtain ⟨hks, hns⟩ := hres
        refine ⟨'V', iV, nameV, by decide, by rw [← hks, hkV],
          by rw [← hns, hnV], hcsV, C6_pick ?_⟩
        intro k' hmem hne
        simp at hmem
        rcases hmem with rfl | rfl | rfl
        · exact .inr ⟨iN, kN, nN, hN, by omega⟩
        · exact .inl hE
        · exact absurd rfl hne
      · -- N kept
        simp only [Option.some.injEq, Prod.mk.injEq] at hres
        obtain ⟨hks, hns⟩ := hres
        have hneq : iV ≠ iN := fun heq =>
          CandSpec_pos_ne (by decide) (heq ▸ hcsV) hcsN
        refine ⟨'N', iN, nameN, by decide, by rw [← hks, hkN],
          by rw [← hns, hnN], hcsN, C6_pick ?_⟩
        intro k' hmem hne
        simp at hmem
        rcases hmem with rfl | rfl | rfl
        · exact absurd rfl hne
        · exact .inl hE
        · exact .inr ⟨iV, kV, nV, hV, by omega⟩
    · -- N and E present
      obtain ⟨hkN, nameN, hnN, hcsN⟩ := (candidateFor_iff _ _ _ _ _).mp hN
      obtain ⟨hkE, nameE, hnE, hcsE⟩ := (candidateFor_iff _ _ _ _ _).mp hE
      split_ifs at hres with hc
      · -- E wins
        simp only [Option.some.injEq, Prod.mk.injEq] at hres
        obtain ⟨hks, hns⟩ := hres
        refine ⟨'E', iE, nameE, by decide, by rw [← hks, hkE],
          by rw [← hns, hnE], hcsE, C6_pick ?_⟩
        intro k' hmem hne
        simp at hmem
        rcases hmem with rfl | rfl | rfl
        · exact .inr ⟨iN, kN, nN, hN, by omega⟩
        · exact absurd rfl hne
        · exact .inl hV
      · -- N kept
        simp only [Option.some.injEq, Prod.mk.injEq] at hres
        obtain ⟨hks, hns⟩ := hres
        have hneq : iE ≠ iN := fun heq =>
          CandSpec_pos_ne (by decide) (heq ▸ hcsE) hcsN
        refine ⟨'N', iN, nameN, by decide, by rw [← hks, hkN],
          by rw [← hns, hnN], hcsN, C6_pick ?_⟩
        intro k' hmem hne
        simp at hmem
        rcases hmem with rfl | rfl | rfl
        · exact absurd rfl hne
        · exact .inr ⟨iE, kE, nE, hE, by omega⟩
        · exact .inl hV
    · -- all three present
      obtain ⟨hkN, nameN, hnN, hcsN⟩ := (candidateFor_iff _ _ _ _ _).mp hN
      obtain ⟨hkE, nameE, hnE, hcsE⟩ := (candidateFor_iff _ _ _ _ _).mp hE
      obtain ⟨hkV, nameV, hnV, hcsV⟩ := (candidateFor_iff _ _ _ _ _).mp hV
      split_ifs at hres with hc1 <;> simp only [gt_iff_lt] at hres <;>
        split_ifs at hres with hc2
      · -- E beat N, V wins
        simp only [Option.some.injEq, Prod.mk.injEq] at hres
        obtain ⟨hks, hns⟩ := hres
        refine ⟨'V', iV, nameV, by decide, by rw [← hks, hkV],
          by rw [← hns, hnV], hcsV, C6_pick ?_⟩
        intro k' hmem hne
        simp at hmem
        rcases hmem with rfl | rfl | rfl
        · exact .inr ⟨iN, kN, nN, hN, by omega⟩
        · exact .inr ⟨iE, kE, nE, hE, by omega⟩
        · exact absurd rfl hne
      · -- E beat N, E kept
        simp only [Option.some.injEq, Prod.mk.injEq] at hres
        obtain ⟨hks, hns⟩ := hres
        have hneq : iV ≠ iE := fun heq =>
          CandSpec_pos_ne (by decide) (heq ▸ hcsV) hcsE
        refine ⟨'E', iE, nameE, by decide, by rw [← hks, hkE],
          by rw [← hns, hnE], hcsE, C6_pick ?_⟩
        intro k' hmem hne
        simp at hmem
        rcases hmem with rfl | rfl | rfl
        · exact .inr ⟨iN, kN, nN, hN, by omega⟩
        · exact absurd rfl hne
        · exact .inr ⟨iV, kV, nV, hV, by omega⟩
      · -- N kept over E, V wins
        simp only [Option.some.injEq, Prod.mk.injEq] at hres
        obtain ⟨hks, hns⟩ := hres
        have hneqEN : iE ≠ iN := fun heq =>
          CandSpec_pos_ne (by decide) (heq ▸ hcsE) hcsN
        refine ⟨'V', iV, nameV, by decide, by rw [← hks, hkV],
          by rw [← hns, hnV], hcsV, C6_pick ?_⟩
        intro k' hmem hne
        simp at hmem
        rcases hmem with rfl | rfl | rfl
        · exact .inr ⟨iN, kN, nN, hN, by omega⟩
        · exact .inr ⟨iE, kE, nE, hE, by omega⟩
        · exact absurd rfl hne
      · -- N kept over E, N kept over V
        simp only [Option.some.injEq, Prod.mk.injEq] at hres
        obtain ⟨hks, hns⟩ := hres
        have hneqEN : iE ≠ iN := fun heq =>
          CandSpec_pos_ne (by decide) (heq ▸ hcsE) hcsN
        have hneqVN : iV ≠ iN := fun heq =>
          CandSpec_pos_ne (by decide) (heq ▸ hcsV) hcsN
        refine ⟨'N', iN, nameN, by decide, by rw [← hks, hkN],
          by rw [← hns, hnN], hcsN, C6_pick ?_⟩
        intro k' hmem hne
        simp at hmem
        rcases hmem with rfl | rfl | rfl
        · exact absurd rfl hne
        · exact .inr ⟨iE, kE, nE, hE, by omega⟩
        · exact .inr ⟨iV, kV, nV, hV, by omega⟩

/-- C6 witness: `find_context_type` on `E<Bar> N<Foo>` yields no context
exactly when all kinds lack candidates — instantiated on text with no
markers at all. -/
theorem C6_witness : find_context_type "no markers here" = none :=
  (C6_context_type_rightmost "no markers here").1.mpr (by decide)

end HelixLsp
